import Mathlib

/-!
Verification development for the `harmony-data-migration` repository.

The repository's two core components are embedded shallowly over `List Char`:

* `MysqlExecutor` models `src/mysql_sql_executor.py`:
  `preprocess_sql_content` and `split_sql_statements` (the statement
  splitter: comment removal, the character scanner, the multi-INSERT
  repair pass, and the final filtering / quote-repair pass).
* `SqlServerToMysql` models `src/sql_server_to_mysql.py`:
  `convert_sql_server_to_mysql` (the dialect translator: the ordered
  regex passes, the line-oriented filter with its trailing-constraint
  suppression, and the structural `CREATE TABLE` rewrite
  `process_create_table`).

Python strings are modelled as `List Char`.  Python's regular expressions
are modelled by hand-written deterministic matchers; for each pattern used
by the code the backtracking behaviour of the Python `re` engine is
deterministic (token classes are disjoint), so a committed scanner is an
exact model.  Unicode-only details that the repository never relies on
(non-ASCII case mapping, exotic Unicode whitespace) are modelled by their
ASCII behaviour.

Scanners that advance by more than one character per step are written by
structural recursion on a fuel argument initialised with the input length;
every step consumes at least one input character and one unit of fuel, so
the fuel never runs out and the definitions compute by `decide` / `rfl`.
-/

namespace HDM

/-- The whitespace characters of Python's `str.strip()` / regex `\s`
(ASCII range: space, tab, newline, carriage return, vertical tab, form feed). -/
def pyIsSpace (c : Char) : Bool :=
  c = ' ' || c = '\t' || c = '\n' || c = '\r' || c = Char.ofNat 11 || c = Char.ofNat 12

/-- Python `str.lstrip()`. -/
def pyLstrip (s : List Char) : List Char := s.dropWhile pyIsSpace

/-- Python `str.rstrip()`. -/
def pyRstrip (s : List Char) : List Char := (s.reverse.dropWhile pyIsSpace).reverse

/-- Python `str.strip()`. -/
def pyStrip (s : List Char) : List Char := pyLstrip (pyRstrip s)

/-- Python `str.rstrip(',')`. -/
def rstripCommas (s : List Char) : List Char := (s.reverse.dropWhile (· = ',')).reverse

/-- Python `str.strip('[]')`. -/
def stripSquareBrackets (s : List Char) : List Char :=
  ((s.dropWhile (fun c => c = '[' || c = ']')).reverse.dropWhile
    (fun c => c = '[' || c = ']')).reverse

/-- ASCII lower-casing of one character (the case mapping Python applies to
the repository's ASCII SQL keywords). -/
def asciiLower (c : Char) : Char :=
  if 'A' ≤ c && c ≤ 'Z' then Char.ofNat (c.toNat + 32) else c

/-- ASCII upper-casing of one character (models Python `str.upper()` on the
ASCII range). -/
def asciiUpper (c : Char) : Char :=
  if 'a' ≤ c && c ≤ 'z' then Char.ofNat (c.toNat - 32) else c

/-- Python `str.upper()` (ASCII model). -/
def upperList (s : List Char) : List Char := s.map asciiUpper

/-- Python `needle in hay` (substring containment). -/
def hasSubstr (needle : List Char) : List Char → Bool
  | [] => needle.isEmpty
  | c :: rest => needle.isPrefixOf (c :: rest) || hasSubstr needle rest

/-- Fuelled worker for `countSubstr`. -/
def countSubstrF (needle : List Char) : Nat → List Char → Nat
  | _, [] => 0
  | 0, _ :: _ => 0
  | fuel + 1, c :: rest =>
    if needle ≠ [] ∧ needle.isPrefixOf (c :: rest) then
      1 + countSubstrF needle fuel ((c :: rest).drop needle.length)
    else
      countSubstrF needle fuel rest

/-- Python `hay.count(needle)`: number of non-overlapping occurrences,
scanning left to right. -/
def countSubstr (needle hay : List Char) : Nat :=
  countSubstrF needle hay.length hay

/-- Fuelled worker for `replaceAll`. -/
def replaceAllF (old new : List Char) : Nat → List Char → List Char
  | _, [] => []
  | 0, s => s
  | fuel + 1, c :: rest =>
    if old ≠ [] ∧ old.isPrefixOf (c :: rest) then
      new ++ replaceAllF old new fuel ((c :: rest).drop old.length)
    else
      c :: replaceAllF old new fuel rest

/-- Python `s.replace(old, new)` with `old ≠ ""`: replace every
non-overlapping occurrence, scanning left to right; replaced text is not
rescanned within the same call. -/
def replaceAll (old new s : List Char) : List Char :=
  replaceAllF old new s.length s

/-- Python `s.rfind(q)`: index of the last occurrence (`none` models `-1`). -/
def rfindChar (q : Char) : List Char → Option Nat
  | [] => none
  | c :: rest =>
    match rfindChar q rest with
    | some i => some (i + 1)
    | none => if c = q then some 0 else none

/-- `s[:i] + [c] + s[i:]` — insertion used by the unmatched-quote repair. -/
def insertAt (s : List Char) (i : Nat) (c : Char) : List Char :=
  s.take i ++ c :: s.drop i

/-- Python `s.split(sep)` for a one-character separator (empty pieces kept). -/
def splitOnChar (sep : Char) : List Char → List (List Char)
  | [] => [[]]
  | c :: rest =>
    if c = sep then [] :: splitOnChar sep rest
    else
      match splitOnChar sep rest with
      | [] => [[c]]
      | h :: t => (c :: h) :: t

/-- Python `sep.join(pieces)`. -/
def joinWithSep (sep : List Char) : List (List Char) → List Char
  | [] => []
  | [l] => l
  | l :: rest => l ++ sep ++ joinWithSep sep rest

/-- Python `s.endswith(';')`. -/
def endsWithSemicolon (s : List Char) : Bool := s.getLast? = some ';'

/-- One line of `re.sub(r'--.*$', '', s, flags=re.MULTILINE)`: everything
from the first `--` to the end of the line is removed.  (Both source files
use this same pattern.) -/
def cutAtDashDash : List Char → List Char
  | [] => []
  | '-' :: '-' :: _ => []
  | c :: rest => c :: cutAtDashDash rest

/-- `re.sub(r'--.*$', '', s, flags=re.MULTILINE)`
(`src/mysql_sql_executor.py` line 264 and `src/sql_server_to_mysql.py`
line 142). -/
def cutLineComments (s : List Char) : List Char :=
  joinWithSep ['\n'] ((splitOnChar '\n' s).map cutAtDashDash)

/-- Regex `\w` (ASCII model): letters, digits, underscore. -/
def isWordChar (c : Char) : Bool :=
  ('a' ≤ c && c ≤ 'z') || ('A' ≤ c && c ≤ 'Z') || ('0' ≤ c && c ≤ '9') || c = '_'

/-- Case-sensitive literal matcher: consume `pat` from the head of the
input, returning the rest. -/
def litCS : List Char → List Char → Option (List Char)
  | [], s => some s
  | _ :: _, [] => none
  | p :: pr, c :: cr => if c = p then litCS pr cr else none

/-- Case-insensitive literal matcher returning (consumed text, rest);
the pattern is given in lower case. -/
def splitLitCI : List Char → List Char → Option (List Char × List Char)
  | [], s => some ([], s)
  | _ :: _, [] => none
  | p :: pr, c :: cr =>
    if asciiLower c = p then
      match splitLitCI pr cr with
      | some (u, r) => some (c :: u, r)
      | none => none
    else none

/-- Case-insensitive literal matcher returning the rest only. -/
def litCI (pat s : List Char) : Option (List Char) :=
  (splitLitCI pat s).map (·.2)

/-- Matcher for regex `\s+` (greedy, hence the maximal run), returning
(consumed run, rest). -/
def splitWsPlus (s : List Char) : Option (List Char × List Char) :=
  let run := s.takeWhile pyIsSpace
  if run.isEmpty then none else some (run, s.dropWhile pyIsSpace)

/-- Matcher for regex `\s+` followed by a non-whitespace token: the greedy
maximal run is the only viable alternative, so only the rest is returned. -/
def wsPlusDrop (s : List Char) : Option (List Char) :=
  (splitWsPlus s).map (·.2)

/-- Matcher for regex `\w+` (greedy), returning (consumed run, rest). -/
def splitWordPlus (s : List Char) : Option (List Char × List Char) :=
  let run := s.takeWhile isWordChar
  if run.isEmpty then none else some (run, s.dropWhile isWordChar)

/-- The alternatives of a greedy `\s+` that is followed by a pattern a
whitespace character could also begin (so real backtracking is needed):
the rests after consuming at least one whitespace character, maximal
consumption first — the preference order of the `re` engine. -/
def wsPlusAlts (s : List Char) : List (List Char) :=
  let run := s.takeWhile pyIsSpace
  let rest := s.dropWhile pyIsSpace
  (List.range run.length).map (fun j => run.drop (run.length - j) ++ rest)

/-- First success of `f` over a list of alternatives. -/
def firstSome (f : α → Option β) : List α → Option β
  | [] => none
  | a :: as =>
    match f a with
    | some b => some b
    | none => firstSome f as

/-- Fuelled worker for `lazyNonNl`. -/
def lazyNonNlF (cont : List Char → Option (List Char)) : Nat → List Char → Option (List Char)
  | _, [] => cont []
  | 0, s => cont s
  | fuel + 1, c :: rest =>
    match cont (c :: rest) with
    | some r => some r
    | none => if c ≠ '\n' then lazyNonNlF cont fuel rest else none

/-- Regex `.*?` (no DOTALL) followed by continuation `cont`: try the
continuation at each position, shortest skip first, never skipping a
newline. -/
def lazyNonNl (cont : List Char → Option (List Char)) (s : List Char) : Option (List Char) :=
  lazyNonNlF cont s.length s

/-- Fuelled worker for `gsub`. -/
def gsubF (try1 : Option Char → List Char → Option (List Char × List Char)) :
    Nat → Option Char → List Char → List Char
  | _, _, [] => []
  | 0, _, s => s
  | fuel + 1, prev, c :: rest =>
    match try1 prev (c :: rest) with
    | some (rep, r) =>
      if (c :: rest).length ≤ r.length then
        c :: gsubF try1 fuel (some c) rest
      else
        rep ++ gsubF try1 fuel
          (((c :: rest).take ((c :: rest).length - r.length)).getLast?) r
    | none => c :: gsubF try1 fuel (some c) rest

/-- `re.sub(pattern, replacement, s)`: scan left to right; at each position
try the matcher (which is given the previous character of the original
text, for word boundaries, and returns the replacement text and the rest
after the match); matched spans are replaced and not rescanned. -/
def gsub (try1 : Option Char → List Char → Option (List Char × List Char))
    (s : List Char) : List Char :=
  gsubF try1 s.length none s

/-- `re.search(...) is not None` for a matcher without word boundaries:
try the matcher at every position. -/
def searchAny (try1 : List Char → Bool) : List Char → Bool
  | [] => try1 []
  | c :: rest => try1 (c :: rest) || searchAny try1 rest

/-- `re.search(...)` returning the first match's capture. -/
def searchFirst (try1 : List Char → Option α) : List Char → Option α
  | [] => try1 []
  | c :: rest =>
    match try1 (c :: rest) with
    | some g => some g
    | none => searchFirst try1 rest

end HDM

namespace MysqlExecutor

open HDM

/-- The `html_entities` replacements of `preprocess_sql_content`
(`src/mysql_sql_executor.py`, lines 191–216), applied in source order. -/
def replaceHtmlEntities (s : List Char) : List Char :=
  let s := replaceAll "&nbsp;".toList " ".toList s
  let s := replaceAll "&lt;".toList "<".toList s
  let s := replaceAll "&gt;".toList ">".toList s
  let s := replaceAll "&amp;".toList "&".toList s
  let s := replaceAll "&quot;".toList "\"".toList s
  let s := replaceAll "&apos;".toList "'".toList s
  let s := replaceAll "&micro;".toList [Char.ofNat 0x3bc] s
  let s := replaceAll "&deg;".toList [Char.ofNat 0xb0] s
  let s := replaceAll "&alpha;".toList [Char.ofNat 0x3b1] s
  let s := replaceAll "&beta;".toList [Char.ofNat 0x3b2] s
  let s := replaceAll "&gamma;".toList [Char.ofNat 0x3b3] s
  let s := replaceAll "&delta;".toList [Char.ofNat 0x3b4] s
  let s := replaceAll "&epsilon;".toList [Char.ofNat 0x3b5] s
  let s := replaceAll "&theta;".toList [Char.ofNat 0x3b8] s
  let s := replaceAll "&lambda;".toList [Char.ofNat 0x3bb] s
  let s := replaceAll "&mu;".toList [Char.ofNat 0x3bc] s
  let s := replaceAll "&pi;".toList [Char.ofNat 0x3c0] s
  let s := replaceAll "&sigma;".toList [Char.ofNat 0x3c3] s
  let s := replaceAll "&phi;".toList [Char.ofNat 0x3c6] s
  let s := replaceAll "&omega;".toList [Char.ofNat 0x3c9] s
  s

/-- The `encoding_fixes` mojibake replacements of `preprocess_sql_content`
(`src/mysql_sql_executor.py`, lines 219–245), applied in source order.
Each key is the two-character sequence `'Ã' (U+00C3)` followed by the listed
second character. -/
def replaceEncodingFixes (s : List Char) : List Char :=
  let s := replaceAll [Char.ofNat 0xc3, Char.ofNat 0xa7] [Char.ofNat 0xe7] s
  let s := replaceAll [Char.ofNat 0xc3, Char.ofNat 0xa5] [Char.ofNat 0xe5] s
  let s := replaceAll [Char.ofNat 0xc3, Char.ofNat 0xa8] [Char.ofNat 0xe8] s
  let s := replaceAll [Char.ofNat 0xc3, Char.ofNat 0xa9] [Char.ofNat 0xe9] s
  let s := replaceAll [Char.ofNat 0xc3, Char.ofNat 0xaa] [Char.ofNat 0xea] s
  let s := replaceAll [Char.ofNat 0xc3, Char.ofNat 0xab] [Char.ofNat 0xeb] s
  let s := replaceAll [Char.ofNat 0xc3, Char.ofNat 0xac] [Char.ofNat 0xec] s
  let s := replaceAll [Char.ofNat 0xc3, Char.ofNat 0xad] [Char.ofNat 0xed] s
  let s := replaceAll [Char.ofNat 0xc3, Char.ofNat 0xae] [Char.ofNat 0xee] s
  let s := replaceAll [Char.ofNat 0xc3, Char.ofNat 0xaf] [Char.ofNat 0xef] s
  let s := replaceAll [Char.ofNat 0xc3, Char.ofNat 0xb1] [Char.ofNat 0xf1] s
  let s := replaceAll [Char.ofNat 0xc3, Char.ofNat 0xb2] [Char.ofNat 0xf2] s
  let s := replaceAll [Char.ofNat 0xc3, Char.ofNat 0xb3] [Char.ofNat 0xf3] s
  let s := replaceAll [Char.ofNat 0xc3, Char.ofNat 0xb4] [Char.ofNat 0xf4] s
  let s := replaceAll [Char.ofNat 0xc3, Char.ofNat 0xb5] [Char.ofNat 0xf5] s
  let s := replaceAll [Char.ofNat 0xc3, Char.ofNat 0xb6] [Char.ofNat 0xf6] s
  let s := replaceAll [Char.ofNat 0xc3, Char.ofNat 0xb9] [Char.ofNat 0xf9] s
  let s := replaceAll [Char.ofNat 0xc3, Char.ofNat 0xba] [Char.ofNat 0xfa] s
  let s := replaceAll [Char.ofNat 0xc3, Char.ofNat 0xbb] [Char.ofNat 0xfb] s
  let s := replaceAll [Char.ofNat 0xc3, Char.ofNat 0xbc] [Char.ofNat 0xfc] s
  let s := replaceAll [Char.ofNat 0xc3, Char.ofNat 0xbf] [Char.ofNat 0xff] s
  s

/-- `preprocess_sql_content` (`src/mysql_sql_executor.py`, lines 185–249):
HTML-entity replacement followed by the mojibake fixes, over the whole
document. -/
def preprocessSqlContent (s : List Char) : List Char :=
  replaceEncodingFixes (replaceHtmlEntities s)

/-- Helper for block comments: drop everything up to and including the first
`*/`, returning the suffix after it. -/
def findBlockEnd : List Char → Option (List Char)
  | [] => none
  | '*' :: '/' :: rest => some rest
  | _ :: rest => findBlockEnd rest

/-- Fuelled worker for `stripBlockComments`. -/
def stripBlockCommentsF : Nat → List Char → List Char
  | _, [] => []
  | 0, s => s
  | fuel + 1, '/' :: '*' :: rest =>
    match findBlockEnd rest with
    | some rest' => stripBlockCommentsF fuel rest'
    | none => '/' :: '*' :: rest
  | fuel + 1, c :: rest => c :: stripBlockCommentsF fuel rest

/-- `re.sub(r'/\*.*?\*/', '', s, flags=re.DOTALL)`
(`src/mysql_sql_executor.py`, line 265): each `/*` block up to the nearest
`*/` is removed; an unterminated `/*` is left in place. -/
def stripBlockComments (s : List Char) : List Char :=
  stripBlockCommentsF s.length s

/-- Fuelled worker for the character scan of `split_sql_statements`
(`src/mysql_sql_executor.py`, lines 267–363), translated branch for branch.

State: accumulated statements `acc`, current buffer `cur`, `inStr` /
`strCh` for an open string literal, the `escape_next` flag `esc` (set by a
backslash inside a string and — exactly as in the source — never cleared
by the scan loop), the three nesting counters, and `bsRun`, the number of
consecutive backslashes immediately before the current position (modelling
the source's backward scan for preceding backslashes). -/
def scanAux : Nat → List Char → List Char → Bool → Option Char → Bool →
    Nat → Nat → Nat → Nat → List (List Char) → List (List Char)
  | _, [], cur, _, _, _, _, _, _, _, acc =>
    let last := pyStrip cur
    if last ≠ [] ∧ last ≠ [';'] then acc ++ [last] else acc
  | 0, _ :: _, _, _, _, _, _, _, _, _, acc => acc
  | fuel + 1, c :: rest, cur, inStr, strCh, esc, pc, bc, brc, bsRun, acc =>
    if c = '\\' ∧ inStr then
      scanAux fuel rest (cur ++ [c]) inStr strCh true pc bc brc (bsRun + 1) acc
    else if (c = '\'' ∨ c = '"') ∧ ¬esc then
      if ¬inStr then
        scanAux fuel rest (cur ++ [c]) true (some c) esc pc bc brc 0 acc
      else if strCh = some c then
        if bsRun % 2 = 0 then
          match rest with
          | c' :: rest' =>
            if c' = c then
              scanAux fuel rest' (cur ++ [c, c]) inStr strCh esc pc bc brc 0 acc
            else
              scanAux fuel rest (cur ++ [c]) false none esc pc bc brc 0 acc
          | [] =>
            scanAux fuel [] (cur ++ [c]) false none esc pc bc brc 0 acc
        else
          scanAux fuel rest (cur ++ [c]) inStr strCh esc pc bc brc 0 acc
      else
        scanAux fuel rest (cur ++ [c]) inStr strCh esc pc bc brc 0 acc
    else
      let pc' := if ¬inStr ∧ c = '(' then pc + 1
                 else if ¬inStr ∧ c = ')' then pc - 1 else pc
      let bc' := if ¬inStr ∧ c = '[' then bc + 1
                 else if ¬inStr ∧ c = ']' then bc - 1 else bc
      let brc' := if ¬inStr ∧ c = Char.ofNat 123 then brc + 1
                  else if ¬inStr ∧ c = Char.ofNat 125 then brc - 1 else brc
      if c = ';' ∧ ¬inStr ∧ pc' = 0 ∧ bc' = 0 ∧ brc' = 0 then
        let st := pyStrip cur
        scanAux fuel rest [] inStr strCh esc pc' bc' brc' 0
          (if st ≠ [] then acc ++ [st] else acc)
      else
        scanAux fuel rest (cur ++ [c]) inStr strCh esc pc' bc' brc'
          (if c = '\\' then bsRun + 1 else 0) acc

/-- The primary scan of `split_sql_statements`, from the initial state. -/
def scanStatements (s : List Char) : List (List Char) :=
  scanAux s.length s [] false none false 0 0 0 0 []

/-- Matcher for `INSERT\s+INTO` with `re.IGNORECASE` at the head of the
input, returning (matched text, rest). -/
def matchInsertInto (s : List Char) : Option (List Char × List Char) :=
  match splitLitCI "insert".toList s with
  | none => none
  | some (u1, s1) =>
    match splitWsPlus s1 with
    | none => none
    | some (u2, s2) =>
      match splitLitCI "into".toList s2 with
      | none => none
      | some (u3, s3) => some (u1 ++ u2 ++ u3, s3)

/-- Fuelled worker for `insertIntoMatches`: the list of (start position,
matched text) of the non-overlapping matches of `INSERT\s+INTO`
(`re.IGNORECASE`), scanning left to right; `i` is the absolute position of
the current suffix. -/
def insertIntoMatchesAux : Nat → Nat → List Char → List (Nat × List Char)
  | _, _, [] => []
  | 0, _, _ :: _ => []
  | fuel + 1, i, c :: rest =>
    match matchInsertInto (c :: rest) with
    | some (m, r) =>
      (i, m) :: insertIntoMatchesAux fuel (i + ((c :: rest).length - r.length)) r
    | none => insertIntoMatchesAux fuel (i + 1) rest

/-- `re.finditer(r'INSERT\s+INTO', stmt, re.IGNORECASE)`, as (start
position, matched text) pairs. -/
def insertIntoMatches (stmt : List Char) : List (Nat × List Char) :=
  insertIntoMatchesAux stmt.length 0 stmt

/-- The `insert_positions` list of `split_sql_statements`
(`src/mysql_sql_executor.py`, lines 374–376). -/
def insertIntoPositions (stmt : List Char) : List Nat :=
  (insertIntoMatches stmt).map (·.1)

/-- One attempt of `re.search(r'VALUES\s*\([^)]*\)\s*;?\s*$', ...,
re.IGNORECASE | re.DOTALL)` anchored at the head of `s`. -/
def valuesTailAttempt (s : List Char) : Bool :=
  match splitLitCI "values".toList s with
  | none => false
  | some (_, s1) =>
    match s1.dropWhile pyIsSpace with
    | '(' :: s3 =>
      match s3.dropWhile (· ≠ ')') with
      | ')' :: s5 =>
        let s6 := s5.dropWhile pyIsSpace
        let s7 := match s6 with
          | ';' :: t => t
          | _ => s6
        (s7.dropWhile pyIsSpace).isEmpty
      | _ => false
    | _ => false

/-- `re.search(r'VALUES\s*\([^)]*\)\s*;?\s*$', sub_stmt, ...) is not None`
(`src/mysql_sql_executor.py`, line 388). -/
def valuesTailMatch : List Char → Bool
  | [] => false
  | c :: rest => valuesTailAttempt (c :: rest) || valuesTailMatch rest

/-- The per-fragment repair of the multi-INSERT branch of
`split_sql_statements` (`src/mysql_sql_executor.py`, lines 384–404):
strip the slice, then guarantee a trailing semicolon (re-synthesizing it
after the last `)` when no complete `VALUES (...)` tail is found). -/
def repairFragment (sub0 : List Char) : List Char :=
  let s := pyStrip sub0
  if valuesTailMatch s then
    if endsWithSemicolon s then s else s ++ [';']
  else
    match rfindChar ')' s with
    | some lp => if lp > 0 then s.take (lp + 1) ++ [';'] else pyRstrip s ++ [';']
    | none => pyRstrip s ++ [';']

/-- The fragment slicing of the multi-INSERT branch: each fragment runs
from one `INSERT INTO` position to the next (the last one to the end of
the statement), then is repaired. -/
def fragmentsFromPositions (stmt : List Char) : List Nat → List (List Char)
  | [] => []
  | [p] => [repairFragment (stmt.drop p)]
  | p :: q :: rest =>
    repairFragment ((stmt.drop p).take (q - p)) :: fragmentsFromPositions stmt (q :: rest)

/-- One statement through the INSERT repair pass of `split_sql_statements`
(`src/mysql_sql_executor.py`, lines 367–420): statements containing more
than one `INSERT INTO` are cut at the match positions; a single `INSERT`
statement without a trailing semicolon gets one re-synthesized after its
last `)`. -/
def repairStatement (stmt : List Char) : List (List Char) :=
  if countSubstr "INSERT INTO".toList (upperList stmt) > 1 then
    fragmentsFromPositions stmt (insertIntoPositions stmt)
  else
    let stmt' :=
      if "INSERT".toList.isPrefixOf (upperList stmt) ∧
          ¬ endsWithSemicolon (pyRstrip stmt) then
        if hasSubstr "VALUES".toList (upperList stmt) then
          match rfindChar ')' stmt with
          | some lp =>
            if lp > 0 then stmt.take (lp + 1) ++ [';'] else pyRstrip stmt ++ [';']
          | none => pyRstrip stmt ++ [';']
        else stmt
      else stmt
    [stmt']

/-- The quote counting of the final filter pass of `split_sql_statements`
(`src/mysql_sql_executor.py`, lines 439–449): single quotes not preceded
by an unconsumed backslash; the Boolean argument is the loop's
`escape_next` flag. -/
def escSqCountAux : Bool → List Char → Nat
  | _, [] => 0
  | esc, c :: rest =>
    if esc then escSqCountAux false rest
    else if c = '\\' then escSqCountAux true rest
    else if c = '\'' then 1 + escSqCountAux false rest
    else escSqCountAux false rest

/-- The single-quote count used by the filter pass. -/
def escSqCount (s : List Char) : Nat := escSqCountAux false s

/-- The unmatched-quote repair of the filter pass
(`src/mysql_sql_executor.py`, lines 452–458): on an odd quote count, a
quote is inserted right after the last quote — provided that quote is not
at position 0. -/
def fixUnmatchedQuote (s : List Char) : List Char :=
  if escSqCount s % 2 ≠ 0 then
    match rfindChar '\'' s with
    | some p => if p > 0 then insertAt s (p + 1) '\'' else s
    | none => s
  else s

/-- The final filter pass of `split_sql_statements`
(`src/mysql_sql_executor.py`, lines 423–460): strip each statement, drop
empty ones and `INSERT` statements without a `VALUES` clause, and apply
the unmatched-quote repair. -/
def filterStatements : List (List Char) → List (List Char)
  | [] => []
  | stmt :: rest =>
    let s := pyStrip stmt
    if s = [] then filterStatements rest
    else if "INSERT".toList.isPrefixOf (upperList s) ∧
        ¬ hasSubstr "VALUES".toList (upperList s) then
      filterStatements rest
    else fixUnmatchedQuote s :: filterStatements rest

/-- `split_sql_statements` (`src/mysql_sql_executor.py`, lines 252–462):
preprocessing, comment removal, the character scan, the multi-INSERT
repair pass, and the final filter pass, in source order. -/
def splitSqlStatements (s : List Char) : List (List Char) :=
  let s := preprocessSqlContent s
  let s := cutLineComments s
  let s := stripBlockComments s
  filterStatements ((scanStatements s).flatMap repairStatement)

/-- The `escape_next` state of the filter pass's quote-counting loop after
processing a list of characters (proof auxiliary for `escSqCountAux`). -/
def escStateAfter : Bool → List Char → Bool
  | b, [] => b
  | esc, c :: rest =>
    if esc then escStateAfter false rest
    else if c = '\\' then escStateAfter true rest
    else escStateAfter false rest

end MysqlExecutor

namespace SqlServerToMysql

open HDM

/-- `DROP_TABLE_PATTERN1` (`src/sql_server_to_mysql.py`, line 45) with its
replacement `DROP TABLE IF EXISTS \1`: the bracketed existence-guarded
drop idiom; the guarded name and the dropped name must coincide
(backreference). -/
def tryDropTable1 (s : List Char) : Option (List Char × List Char) := do
  let s ← litCS "IF EXISTS (SELECT * FROM sys.all_objects WHERE object_id = OBJECT_ID(N'[dbo].[".toList s
  let (w, s) ← splitWordPlus s
  let s ← litCS "]') AND type IN ('U'))".toList s
  let s ← wsPlusDrop s
  let s ← litCS "DROP TABLE [dbo].[".toList s
  let s ← litCS w s
  let s ← litCS "]".toList s
  pure ("DROP TABLE IF EXISTS ".toList ++ w, s)

/-- `DROP_TABLE_PATTERN2` (`src/sql_server_to_mysql.py`, line 46), the
unbracketed form, with the same replacement. -/
def tryDropTable2 (s : List Char) : Option (List Char × List Char) := do
  let s ← litCS "IF EXISTS (SELECT * FROM sys.all_objects WHERE object_id = OBJECT_ID(N'".toList s
  let (w, s) ← splitWordPlus s
  let s ← litCS "') AND type IN ('U'))".toList s
  let s ← wsPlusDrop s
  let s ← litCS "DROP TABLE ".toList s
  let s ← litCS w s
  pure ("DROP TABLE IF EXISTS ".toList ++ w, s)

/-- Common prefix `SET\s+IDENTITY_INSERT\s+` (IGNORECASE) of the
`IDENTITY_INSERT_*_PATTERNS` (`src/sql_server_to_mysql.py`, lines 49–58),
stopping before the final `\s+`. -/
def idInsertPrefix (s : List Char) : Option (List Char) := do
  let s ← litCI "set".toList s
  let s ← wsPlusDrop s
  litCI "identity_insert".toList s

/-- `SET\s+IDENTITY_INSERT\s+\[.*?\]\.\[.*?\]\s+(ON|OFF)`: the first,
fully bracketed `IDENTITY_INSERT` pattern (`kw` is `on` or `off`). -/
def tryIdInsertBr2 (kw : List Char) (rep : List Char) (s : List Char) :
    Option (List Char × List Char) := do
  let s ← idInsertPrefix s
  let s ← wsPlusDrop s
  let s ← litCS "[".toList s
  let s ← lazyNonNl (fun t => do
      let t ← litCS "]".toList t
      let t ← litCS ".".toList t
      let t ← litCS "[".toList t
      lazyNonNl (fun u => do
          let u ← litCS "]".toList u
          let u ← wsPlusDrop u
          litCI kw u) t) s
  pure (rep, s)

/-- `SET\s+IDENTITY_INSERT\s+\[.*?\]\s+(ON|OFF)`: the singly bracketed
`IDENTITY_INSERT` pattern. -/
def tryIdInsertBr1 (kw : List Char) (rep : List Char) (s : List Char) :
    Option (List Char × List Char) := do
  let s ← idInsertPrefix s
  let s ← wsPlusDrop s
  let s ← litCS "[".toList s
  let s ← lazyNonNl (fun t => do
      let t ← litCS "]".toList t
      let t ← wsPlusDrop t
      litCI kw t) s
  pure (rep, s)

/-- `SET\s+IDENTITY_INSERT\s+.*?\s+(ON|OFF)`: the unbracketed
`IDENTITY_INSERT` pattern; here the greedy `\s+` meets a lazy `.*?`, so
the whitespace alternatives are tried in the engine's preference order. -/
def tryIdInsertAny (kw : List Char) (rep : List Char) (s : List Char) :
    Option (List Char × List Char) := do
  let s ← idInsertPrefix s
  let s ← firstSome
    (lazyNonNl (fun t => do
      let t ← wsPlusDrop t
      litCI kw t))
    (wsPlusAlts s)
  pure (rep, s)

/-- The tail `\s+SET\s+\(LOCK_ESCALATION\s*=\s*TABLE\)` (IGNORECASE) shared
by the `ALTER_TABLE_LOCK_ESCALATION_PATTERNS`
(`src/sql_server_to_mysql.py`, lines 61–65). -/
def lockEscTail (u : List Char) : Option (List Char) := do
  let u ← wsPlusDrop u
  let u ← litCI "set".toList u
  let u ← wsPlusDrop u
  let u ← litCS "(".toList u
  let u ← litCI "lock_escalation".toList u
  let u := u.dropWhile pyIsSpace
  let u ← litCS "=".toList u
  let u := u.dropWhile pyIsSpace
  let u ← litCI "table".toList u
  litCS ")".toList u

/-- `ALTER\s+TABLE\s+\[.*?\]\.\[.*?\]\s+SET\s+\(LOCK_ESCALATION\s*=\s*TABLE\)`. -/
def tryLockEsc2 (s : List Char) : Option (List Char × List Char) := do
  let s ← litCI "alter".toList s
  let s ← wsPlusDrop s
  let s ← litCI "table".toList s
  let s ← wsPlusDrop s
  let s ← litCS "[".toList s
  let s ← lazyNonNl (fun t => do
      let t ← litCS "]".toList t
      let t ← litCS ".".toList t
      let t ← litCS "[".toList t
      lazyNonNl (fun u => do
          let u ← litCS "]".toList u
          lockEscTail u) t) s
  pure ([], s)

/-- `ALTER\s+TABLE\s+\[.*?\]\s+SET\s+\(LOCK_ESCALATION\s*=\s*TABLE\)`. -/
def tryLockEsc1 (s : List Char) : Option (List Char × List Char) := do
  let s ← litCI "alter".toList s
  let s ← wsPlusDrop s
  let s ← litCI "table".toList s
  let s ← wsPlusDrop s
  let s ← litCS "[".toList s
  let s ← lazyNonNl (fun t => do
      let t ← litCS "]".toList t
      lockEscTail t) s
  pure ([], s)

/-- `ALTER\s+TABLE\s+.*?\s+SET\s+\(LOCK_ESCALATION\s*=\s*TABLE\)`. -/
def tryLockEscAny (s : List Char) : Option (List Char × List Char) := do
  let s ← litCI "alter".toList s
  let s ← wsPlusDrop s
  let s ← litCI "table".toList s
  let s ← firstSome (lazyNonNl lockEscTail) (wsPlusAlts s)
  pure ([], s)

/-- `COLLATE_PATTERN` (`src/sql_server_to_mysql.py`, line 82):
`\s+COLLATE\s+Chinese_PRC_CI_AS` (IGNORECASE), removed. -/
def tryCollate (s : List Char) : Option (List Char × List Char) := do
  let s ← wsPlusDrop s
  let s ← litCI "collate".toList s
  let s ← wsPlusDrop s
  let s ← litCI "chinese_prc_ci_as".toList s
  pure ([], s)

/-- `\b` immediately before a word character: the previous character (in
the original text) is absent or not a word character. -/
def atWordBoundary : Option Char → Bool
  | none => true
  | some c => ¬ isWordChar c

/-- `DBO_PREFIX_PATTERN` (`src/sql_server_to_mysql.py`, line 84):
`\bdbo\.` (case-sensitive), removed. -/
def tryDbo (prev : Option Char) (s : List Char) : Option (List Char × List Char) :=
  if atWordBoundary prev then
    match litCS "dbo.".toList s with
    | some r => some ([], r)
    | none => none
  else none

/-- `UNICODE_STRING_PATTERN` (`src/sql_server_to_mysql.py`, line 85):
`N'([^']*)'`, replaced by `'...'` (the capture re-quoted). -/
def tryNStr (s : List Char) : Option (List Char × List Char) := do
  let s ← litCS "N'".toList s
  let run := s.takeWhile (· ≠ '\'')
  match s.dropWhile (· ≠ '\'') with
  | '\'' :: rest => pure ('\'' :: (run ++ ['\'']), rest)
  | _ => none

/-- `NUMERIC_TO_DECIMAL_PATTERN` (`src/sql_server_to_mysql.py`, line 86):
`\bnumeric\b` (IGNORECASE) → `decimal`. -/
def tryNumeric (prev : Option Char) (s : List Char) : Option (List Char × List Char) :=
  if atWordBoundary prev then
    match litCI "numeric".toList s with
    | some r =>
      if (r.head?.map isWordChar).getD false then none
      else some ("decimal".toList, r)
    | none => none
  else none

/-- `MONEY_TO_DECIMAL_PATTERN` (`src/sql_server_to_mysql.py`, line 88):
`\bmoney\b` (IGNORECASE) → `decimal(19,4)`. -/
def tryMoney (prev : Option Char) (s : List Char) : Option (List Char × List Char) :=
  if atWordBoundary prev then
    match litCI "money".toList s with
    | some r =>
      if (r.head?.map isWordChar).getD false then none
      else some ("decimal(19,4)".toList, r)
    | none => none
  else none

/-- `GO_STATEMENT_PATTERN` (`src/sql_server_to_mysql.py`, line 87):
`\bGO\b` (case-sensitive) → `;`. -/
def tryGo (prev : Option Char) (s : List Char) : Option (List Char × List Char) :=
  if atWordBoundary prev then
    match litCS "GO".toList s with
    | some r =>
      if (r.head?.map isWordChar).getD false then none
      else some ([';'], r)
    | none => none
  else none

/-- `IDENTITY_PATTERN` (`src/sql_server_to_mysql.py`, line 90):
`\s+IDENTITY\([^)]+\)` (IGNORECASE), removed. -/
def tryIdentitySpec (s : List Char) : Option (List Char × List Char) := do
  let s ← wsPlusDrop s
  let s ← litCI "identity".toList s
  let s ← litCS "(".toList s
  let run := s.takeWhile (· ≠ ')')
  if run.isEmpty then none
  else
    match s.dropWhile (· ≠ ')') with
    | ')' :: rest => pure ([], rest)
    | _ => none

/-- The capture group `(\[?\w+\]?)` shared by `AUTO_INCREMENT_PATTERN` and
`PRIMARY_KEY_COL_PATTERN`. -/
def tryOptBrWordOptBr (s : List Char) : Option (List Char × List Char) :=
  let (b1, t1) := match s with
    | '[' :: t => ((['['] : List Char), t)
    | _ => (([] : List Char), s)
  match splitWordPlus t1 with
  | none => none
  | some (w, t2) =>
    let (b2, t3) := match t2 with
      | ']' :: t => (([']'] : List Char), t)
      | _ => (([] : List Char), t2)
    some (b1 ++ w ++ b2, t3)

/-- The alternation `(NOT\s+NULL|NULL)` (IGNORECASE), capturing the matched
text; `NOT\s+NULL` is preferred. -/
def tryNotNullOrNull (s : List Char) : Option (List Char × List Char) :=
  match (do
    let (u1, t1) ← splitLitCI "not".toList s
    let (u2, t2) ← splitWsPlus t1
    let (u3, t3) ← splitLitCI "null".toList t2
    pure (u1 ++ u2 ++ u3, t3)) with
  | some r => some r
  | none => splitLitCI "null".toList s

/-- `AUTO_INCREMENT_PATTERN` (`src/sql_server_to_mysql.py`, line 91):
`(\[?\w+\]?)\s+int\s+(NOT\s+NULL|NULL)` (IGNORECASE), replaced by
`\1 int AUTO_INCREMENT \2`. -/
def tryAutoInc (s : List Char) : Option (List Char × List Char) := do
  let (g1, t) ← tryOptBrWordOptBr s
  let t ← wsPlusDrop t
  let t ← litCI "int".toList t
  let t ← wsPlusDrop t
  let (g2, t) ← tryNotNullOrNull t
  pure (g1 ++ " int AUTO_INCREMENT ".toList ++ g2, t)

/-- One attempt of `PRIMARY_KEY_COL_PATTERN`
(`src/sql_server_to_mysql.py`, line 92):
`(\[?\w+\]?)\s+int\s+AUTO_INCREMENT\s+NOT\s+NULL` (IGNORECASE),
returning the capture. -/
def tryPkCol (s : List Char) : Option (List Char) := do
  let (g1, t) ← tryOptBrWordOptBr s
  let t ← wsPlusDrop t
  let t ← litCI "int".toList t
  let t ← wsPlusDrop t
  let t ← litCI "auto_increment".toList t
  let t ← wsPlusDrop t
  let t ← litCI "not".toList t
  let t ← wsPlusDrop t
  let _ ← litCI "null".toList t
  pure g1

/-- `PRIMARY_KEY_COL_PATTERN.search(...)`, returning `group(1)`. -/
def pkColSearch (s : List Char) : Option (List Char) :=
  searchFirst tryPkCol s

/-- `BRACKET_PATTERN` (`src/sql_server_to_mysql.py`, line 81):
`\[([^\]]+)\]`, replaced by the capture `\1`. -/
def tryBracket (s : List Char) : Option (List Char × List Char) :=
  match s with
  | c :: t =>
    if c = '[' then
      let run := t.takeWhile (· ≠ ']')
      if run.isEmpty then none
      else
        match t.dropWhile (· ≠ ']') with
        | c' :: rest => if c' = ']' then some (run, rest) else none
        | [] => none
    else none
  | [] => none

/-- `re.sub(r'\n\s*\n', '\n\n', ...)` (`src/sql_server_to_mysql.py`,
line 363): the greedy `\s*` backtracks to the last newline of the
whitespace run. -/
def tryBlankCollapse (s : List Char) : Option (List Char × List Char) :=
  match s with
  | '\n' :: t =>
    let run := t.takeWhile pyIsSpace
    match rfindChar '\n' run with
    | some k => some ("\n\n".toList, t.drop (k + 1))
    | none => none
  | _ => none

/-- The bracket-stripping substitution `BRACKET_PATTERN.sub(r'\1', ...)`. -/
def bracketSub (s : List Char) : List Char := gsub (fun _ => tryBracket) s

/-- `COLLATE_PATTERN.sub('', ...)`. -/
def collateSub (s : List Char) : List Char := gsub (fun _ => tryCollate) s

/-- `DBO_PREFIX_PATTERN.sub('', ...)`. -/
def dboSub (s : List Char) : List Char := gsub tryDbo s

/-- `UNICODE_STRING_PATTERN.sub(lambda m: "'" + m.group(1) + "'", ...)`. -/
def unicodeStrSub (s : List Char) : List Char := gsub (fun _ => tryNStr) s

/-- `NUMERIC_TO_DECIMAL_PATTERN.sub('decimal', ...)`. -/
def numericSub (s : List Char) : List Char := gsub tryNumeric s

/-- `MONEY_TO_DECIMAL_PATTERN.sub('decimal(19,4)', ...)`. -/
def moneySub (s : List Char) : List Char := gsub tryMoney s

/-- `GO_STATEMENT_PATTERN.sub(';', ...)`. -/
def goSub (s : List Char) : List Char := gsub tryGo s

/-- `IDENTITY_PATTERN.sub('', ...)`. -/
def identitySub (s : List Char) : List Char := gsub (fun _ => tryIdentitySpec) s

/-- `AUTO_INCREMENT_PATTERN.sub(r'\1 int AUTO_INCREMENT \2', ...)`. -/
def autoIncrementSub (s : List Char) : List Char := gsub (fun _ => tryAutoInc) s

/-- `re.sub(r'\n\s*\n', '\n\n', ...)`. -/
def blankCollapseSub (s : List Char) : List Char := gsub (fun _ => tryBlankCollapse) s

/-- One attempt of `re.search(r'ALTER TABLE.*SET\s+LOCK_ESCALATION', line,
re.IGNORECASE)` (`src/sql_server_to_mysql.py`, line 266), anchored at the
head. -/
def lockEscSearchAttempt (s : List Char) : Bool :=
  (Option.isSome (do
    let t ← litCI "alter table".toList s
    lazyNonNl (fun u => do
      let u ← litCI "set".toList u
      let u ← wsPlusDrop u
      litCI "lock_escalation".toList u) t))

/-- `re.search(r'ALTER TABLE.*SET\s+LOCK_ESCALATION', line, re.IGNORECASE)
is not None`. -/
def lockEscalationSearch (l : List Char) : Bool :=
  searchAny lockEscSearchAttempt l

end SqlServerToMysql

namespace SqlServerToMysql

open HDM

/-- One iteration of the column-definition loop of `process_create_table`
(`src/sql_server_to_mysql.py`, lines 297–329) on the state
(processed lines so far, primary-key candidate): strip the line, skip it
when empty (or empty once its `--` comment is cut); on a line containing
`IDENTITY(` remove the identity specifier, add `AUTO_INCREMENT` after the
integer type, and (when `PRIMARY_KEY_COL_PATTERN` finds a match) overwrite
the primary-key candidate; then strip brackets and `COLLATE`, map `money`,
and drop a trailing comma. -/
def bodyStep (st : List (List Char) × Option (List Char)) (rawLine : List Char) :
    List (List Char) × Option (List Char) :=
  let line := pyStrip rawLine
  if line = [] then st
  else
    let sqlPart := if hasSubstr "--".toList line then pyRstrip (cutAtDashDash line) else line
    if hasSubstr "--".toList line ∧ pyStrip sqlPart = [] then st
    else
      let (sqlPart, pk) :=
        if hasSubstr "IDENTITY(".toList sqlPart then
          let sp := autoIncrementSub (identitySub sqlPart)
          (sp, match pkColSearch sp with
               | some c => some c
               | none => st.2)
        else (sqlPart, st.2)
      let sqlPart := bracketSub sqlPart
      let sqlPart := collateSub sqlPart
      let sqlPart := moneySub sqlPart
      (st.1 ++ [rstripCommas sqlPart], pk)

/-- The full column-definition loop of `process_create_table` over a list
of body lines. -/
def bodyStateOfLines (lines : List (List Char)) : List (List Char) × Option (List Char) :=
  lines.foldl bodyStep ([], none)

/-- The full column-definition loop of `process_create_table` over the
lines of a table body. -/
def processedBodyState (body : List Char) : List (List Char) × Option (List Char) :=
  bodyStateOfLines (splitOnChar '\n' body)

/-- The comma re-synthesis of `process_create_table`
(`src/sql_server_to_mysql.py`, lines 333–337): every processed line except
the last gets a trailing comma, provided it is not blank. -/
def withTrailingCommas : List (List Char) → List (List Char)
  | [] => []
  | [l] => [l]
  | l :: rest =>
    (if pyStrip l ≠ [] then l ++ [','] else l) :: withTrailingCommas rest

/-- The body rewrite of `process_create_table`
(`src/sql_server_to_mysql.py`, lines 292–350) over a list of body lines:
process the lines, re-join them with `,\n  `, and append
`PRIMARY KEY (<candidate>)` when a candidate was recorded and the rebuilt
body has no `PRIMARY KEY` yet. -/
def processBodyLines (lines : List (List Char)) : List Char :=
  let st := bodyStateOfLines lines
  let newBody := joinWithSep "\n  ".toList (withTrailingCommas st.1)
  match st.2 with
  | some pkCol =>
    if ¬ hasSubstr "PRIMARY KEY".toList newBody then
      pyRstrip (rstripCommas newBody) ++ ",\n  PRIMARY KEY (".toList ++
        stripSquareBrackets pkCol ++ [')']
    else newBody
  | none => newBody

/-- The body rewrite of `process_create_table` on the raw body text. -/
def processCreateTableBody (body : List Char) : List Char :=
  processBodyLines (splitOnChar '\n' body)

/-- The `(\[?dbo\]?\.)?` optional group of `CREATE_TABLE_PATTERN`:
consumed when it matches, skipped otherwise. -/
def tryDboPrefixGroup (s : List Char) : List Char :=
  match (do
    let t := match s with
      | '[' :: t => t
      | _ => s
    let t ← litCI "dbo".toList t
    let t := match t with
      | ']' :: u => u
      | _ => t
    litCS ".".toList t) with
  | some r => r
  | none => s

/-- Fuelled worker for `findBodyEnd`: the lazy `(.*?)\)\s*;` (DOTALL) of
`CREATE_TABLE_PATTERN` — accumulate body text until the first `)` that is
followed by optional whitespace and `;`, returning (body, rest after `;`). -/
def findBodyEndF : Nat → List Char → Option (List Char × List Char)
  | _, [] => none
  | 0, _ => none
  | fuel + 1, t =>
    match (match t with
      | ')' :: u =>
        match u.dropWhile pyIsSpace with
        | ';' :: v => some v
        | _ => none
      | _ => none) with
    | some v => some ([], v)
    | none =>
      match t with
      | c :: u =>
        match findBodyEndF fuel u with
        | some (b, v) => some (c :: b, v)
        | none => none
      | [] => none

/-- The lazy body capture `(.*?)\)\s*;` of `CREATE_TABLE_PATTERN`. -/
def findBodyEnd (s : List Char) : Option (List Char × List Char) :=
  findBodyEndF s.length s

/-- `CREATE_TABLE_PATTERN` (`src/sql_server_to_mysql.py`, line 283) with
the `process_create_table` replacement (lines 285–355):
`CREATE TABLE\s+(\[?dbo\]?\.)?\[?(\w+)\]?\s*\((.*?)\)\s*;`
(DOTALL, IGNORECASE) rewritten to
`CREATE TABLE <name> (\n  <processed body>\n)`. -/
def tryCreateTable (s : List Char) : Option (List Char × List Char) := do
  let s ← litCI "create table".toList s
  let s ← wsPlusDrop s
  let s := tryDboPrefixGroup s
  let s := match s with
    | '[' :: t => t
    | _ => s
  let (name, s) ← splitWordPlus s
  let s := match s with
    | ']' :: t => t
    | _ => s
  let s := s.dropWhile pyIsSpace
  let s ← litCS "(".toList s
  let (body, rest) ← findBodyEnd s
  pure ("CREATE TABLE ".toList ++ name ++ " (\n  ".toList ++
        processCreateTableBody body ++ "\n)".toList, rest)

/-- `create_table_pattern.sub(process_create_table, sql_content)`
(`src/sql_server_to_mysql.py`, line 358). -/
def createTableSub (s : List Char) : List Char := gsub (fun _ => tryCreateTable) s

/-- The per-line substitutions of step 10 of `convert_sql_server_to_mysql`
(`src/sql_server_to_mysql.py`, lines 257–263): brackets, `COLLATE`,
`dbo.`, `N'...'`, `numeric`, `money`, in that order. -/
def lineTransform (line : List Char) : List Char :=
  let l := bracketSub line
  let l := collateSub l
  let l := dboSub l
  let l := unicodeStrSub l
  let l := numericSub l
  let l := moneySub l
  l

/-- The banner-skip test of step 10 (`src/sql_server_to_mysql.py`,
line 246): `'-- ----------------------------' in line or '-- Records of'
in line`. -/
def isBannerLine (line : List Char) : Bool :=
  hasSubstr "-- ----------------------------".toList line ||
  hasSubstr "-- Records of".toList line

/-- The suppression trigger of step 10 (`src/sql_server_to_mysql.py`,
line 250): a primary-key `ALTER TABLE ... ADD CONSTRAINT ... PRIMARY KEY`
line or a `Primary Key structure` banner. -/
def isSuppressionTrigger (line : List Char) : Bool :=
  (hasSubstr "ALTER TABLE".toList line &&
   hasSubstr "ADD CONSTRAINT".toList line &&
   hasSubstr "PRIMARY KEY".toList line) ||
  hasSubstr "Primary Key structure".toList line

/-- One iteration of the line loop of step 10
(`src/sql_server_to_mysql.py`, lines 233–271) on the state
(`skip_everything`, processed lines): rstrip the line; once
`skip_everything` is set nothing more is emitted; banner lines are
dropped; a suppression trigger sets `skip_everything`; otherwise the line
is transformed (emptied entirely when the `LOCK_ESCALATION` search hits)
and kept unless the transform emptied a non-blank line. -/
def linePassStep (st : Bool × List (List Char)) (rawLine : List Char) :
    Bool × List (List Char) :=
  let line := pyRstrip rawLine
  if st.1 then st
  else if isBannerLine line then st
  else if isSuppressionTrigger line then (true, st.2)
  else
    let p := lineTransform line
    let p := if lockEscalationSearch p then [] else p
    if pyStrip p ≠ [] ∨ pyStrip line = [] then (st.1, st.2 ++ [p]) else st

/-- The line loop of step 10 over a list of lines, from the initial
`SCANNING` state (`skip_everything = False`, no output). -/
def linePassLines (lines : List (List Char)) : List (List Char) :=
  (lines.foldl linePassStep (false, [])).2

/-- Step 10 of `convert_sql_server_to_mysql`
(`src/sql_server_to_mysql.py`, lines 226–276): the line-oriented filter
with its irreversible trailing-constraint suppression. -/
def linePass (s : List Char) : List Char :=
  joinWithSep ['\n'] (linePassLines (splitOnChar '\n' s))

/-- `convert_sql_server_to_mysql` (`src/sql_server_to_mysql.py`,
lines 106–365): the ordered pass pipeline.  The multiline-comment and
quote-placeholder steps are commented out in the source and therefore
absent; the remaining passes appear in source order. -/
def convertSqlServerToMysql (s : List Char) : List Char :=
  let s := cutLineComments s
  let s := gsub (fun _ => tryDropTable1) s
  let s := gsub (fun _ => tryDropTable2) s
  let s := gsub (fun _ => tryIdInsertBr2 "on".toList "SET FOREIGN_KEY_CHECKS=0;".toList) s
  let s := gsub (fun _ => tryIdInsertBr1 "on".toList "SET FOREIGN_KEY_CHECKS=0;".toList) s
  let s := gsub (fun _ => tryIdInsertAny "on".toList "SET FOREIGN_KEY_CHECKS=0;".toList) s
  let s := gsub (fun _ => tryIdInsertBr2 "off".toList "SET FOREIGN_KEY_CHECKS=1;".toList) s
  let s := gsub (fun _ => tryIdInsertBr1 "off".toList "SET FOREIGN_KEY_CHECKS=1;".toList) s
  let s := gsub (fun _ => tryIdInsertAny "off".toList "SET FOREIGN_KEY_CHECKS=1;".toList) s
  let s := gsub (fun _ => tryLockEsc2) s
  let s := gsub (fun _ => tryLockEsc1) s
  let s := gsub (fun _ => tryLockEscAny) s
  let s := collateSub s
  let s := dboSub s
  let s := unicodeStrSub s
  let s := numericSub s
  let s := moneySub s
  let s := goSub s
  let s := linePass s
  let s := createTableSub s
  let s := blankCollapseSub s
  s

end SqlServerToMysql

namespace SqlServerToMysql

open HDM

/-- The text one body line contributes to the processed lines of
`process_create_table` (`none` when the line is skipped): the per-line
view of `bodyStep`, which appends exactly this output. -/
def bodyLineOut (rawLine : List Char) : Option (List Char) :=
  let line := pyStrip rawLine
  if line = [] then none
  else
    let sqlPart := if hasSubstr "--".toList line then pyRstrip (cutAtDashDash line) else line
    if hasSubstr "--".toList line ∧ pyStrip sqlPart = [] then none
    else
      let sqlPart :=
        if hasSubstr "IDENTITY(".toList sqlPart then
          autoIncrementSub (identitySub sqlPart)
        else sqlPart
      let sqlPart := bracketSub sqlPart
      let sqlPart := collateSub sqlPart
      let sqlPart := moneySub sqlPart
      some (rstripCommas sqlPart)

/-- The primary-key candidate one body line yields (`none` when it yields
none): the per-line view of `bodyStep`, which overwrites the recorded
candidate exactly when this is `some`. -/
def bodyLinePk (rawLine : List Char) : Option (List Char) :=
  let line := pyStrip rawLine
  if line = [] then none
  else
    let sqlPart := if hasSubstr "--".toList line then pyRstrip (cutAtDashDash line) else line
    if hasSubstr "--".toList line ∧ pyStrip sqlPart = [] then none
    else
      if hasSubstr "IDENTITY(".toList sqlPart then
        pkColSearch (autoIncrementSub (identitySub sqlPart))
      else none

end SqlServerToMysql

namespace ClaimSpec

open HDM

/-- Modelled from the claim's hypothesis (spec §4.1, lexical rules): a
document in which every quote character is properly paired — scanning left
to right, a quote opens a string region; inside a region a backslash
escapes the next character, a doubled delimiter is data, and a lone
matching delimiter closes the region; the scan must end outside any
region.  Fuelled worker: state is the open delimiter (if any) and the
one-shot escape flag. -/
def wellPairedAuxF : Nat → Option Char → Bool → List Char → Bool
  | _, none, _, [] => true
  | _, some _, _, [] => false
  | 0, _, _, _ :: _ => false
  | fuel + 1, none, _, c :: rest =>
    if c = '\'' ∨ c = '"' then wellPairedAuxF fuel (some c) false rest
    else wellPairedAuxF fuel none false rest
  | fuel + 1, some q, esc, c :: rest =>
    if esc then wellPairedAuxF fuel (some q) false rest
    else if c = '\\' then wellPairedAuxF fuel (some q) true rest
    else if c = q then
      match rest with
      | c' :: rest' =>
        if c' = q then wellPairedAuxF fuel (some q) false rest'
        else wellPairedAuxF fuel none false rest
      | [] => true
    else wellPairedAuxF fuel (some q) false rest

/-- Every quote character of `s` is properly paired. -/
def wellPairedQuotes (s : List Char) : Bool :=
  wellPairedAuxF s.length none false s

/-- Modelled from the claim's vocabulary: the number of unescaped,
non-doubled occurrences of the quote character `q` — a backslash consumes
the following character, and a doubled `q q` is the literal-escaping
convention and counts as data, not as delimiters. -/
def countUnescapedNonDoubledF (q : Char) : Nat → List Char → Nat
  | _, [] => 0
  | 0, _ :: _ => 0
  | fuel + 1, c :: rest =>
    if c = '\\' then
      match rest with
      | _ :: rest' => countUnescapedNonDoubledF q fuel rest'
      | [] => 0
    else if c = q then
      match rest with
      | c' :: rest' =>
        if c' = q then countUnescapedNonDoubledF q fuel rest'
        else 1 + countUnescapedNonDoubledF q fuel (c' :: rest')
      | [] => 1
    else countUnescapedNonDoubledF q fuel rest

/-- The number of unescaped, non-doubled occurrences of `q` in `s`. -/
def countUnescapedNonDoubled (q : Char) (s : List Char) : Nat :=
  countUnescapedNonDoubledF q s.length s

end ClaimSpec

namespace HDM

theorem head?_dropWhile_not (p : Char → Bool) :
    ∀ (l : List Char) {c : Char}, (l.dropWhile p).head? = some c → p c = false := by
  intro l
  induction l with
  | nil => intro c h; simp [List.dropWhile] at h
  | cons a t ih =>
    intro c h
    rw [List.dropWhile_cons] at h
    by_cases hp : p a
    · rw [if_pos hp] at h
      exact ih h
    · rw [if_neg hp] at h
      simp at h
      rw [← h]
      simpa using hp

theorem pyLstrip_eq_self {s : List Char} {c : Char}
    (h : s.head? = some c) (hc : pyIsSpace c = false) : pyLstrip s = s := by
  cases s with
  | nil => simp at h
  | cons a t =>
    simp at h
    rw [← h] at hc
    simp [pyLstrip, List.dropWhile_cons, hc]

theorem pyRstrip_eq_self {s : List Char} {c : Char}
    (h : s.getLast? = some c) (hc : pyIsSpace c = false) : pyRstrip s = s := by
  have hr : s.reverse.head? = some c := by rw [List.head?_reverse]; exact h
  have h2 : s.reverse.dropWhile pyIsSpace = s.reverse := pyLstrip_eq_self hr hc
  unfold pyRstrip
  rw [h2, List.reverse_reverse]

theorem pyLstrip_head?_not {s : List Char} {c : Char}
    (h : (pyLstrip s).head? = some c) : pyIsSpace c = false :=
  head?_dropWhile_not pyIsSpace s h

theorem pyRstrip_getLast?_not {s : List Char} {c : Char}
    (h : (pyRstrip s).getLast? = some c) : pyIsSpace c = false := by
  have : (s.reverse.dropWhile pyIsSpace).head? = some c := by
    rw [← List.getLast?_reverse]
    simpa [pyRstrip] using h
  exact head?_dropWhile_not pyIsSpace s.reverse this

theorem pyLstrip_getLast? {s : List Char} (h : pyLstrip s ≠ []) :
    (pyLstrip s).getLast? = s.getLast? := by
  have hsplit : s = s.takeWhile pyIsSpace ++ pyLstrip s := by
    unfold pyLstrip
    rw [List.takeWhile_append_dropWhile]
  conv_rhs => rw [hsplit]
  rw [List.getLast?_append_of_ne_nil _ h]

theorem pyStrip_head?_not {s : List Char} {c : Char}
    (h : (pyStrip s).head? = some c) : pyIsSpace c = false :=
  pyLstrip_head?_not h

theorem pyStrip_getLast?_not {s : List Char} {c : Char}
    (h : (pyStrip s).getLast? = some c) : pyIsSpace c = false := by
  have hne : pyStrip s ≠ [] := by
    intro he
    rw [he] at h
    simp at h
  unfold pyStrip at h hne
  rw [pyLstrip_getLast? hne] at h
  exact pyRstrip_getLast?_not h

theorem pyStrip_eq_self {t : List Char} (hne : t ≠ [])
    (h1 : ∀ c, t.head? = some c → pyIsSpace c = false)
    (h2 : ∀ c, t.getLast? = some c → pyIsSpace c = false) : pyStrip t = t := by
  obtain ⟨c0, hc0⟩ : ∃ c, t.head? = some c := by
    cases t with
    | nil => exact absurd rfl hne
    | cons a u => exact ⟨a, rfl⟩
  obtain ⟨cl, hcl⟩ : ∃ c, t.getLast? = some c := by
    cases t with
    | nil => exact absurd rfl hne
    | cons a u => exact ⟨(a :: u).getLast (by simp), List.getLast?_eq_getLast _ _⟩
  unfold pyStrip
  rw [pyRstrip_eq_self hcl (h2 cl hcl), pyLstrip_eq_self hc0 (h1 c0 hc0)]

theorem pyStrip_idem (s : List Char) : pyStrip (pyStrip s) = pyStrip s := by
  by_cases h : pyStrip s = []
  · rw [h]; rfl
  · exact pyStrip_eq_self h (fun c => pyStrip_head?_not) (fun c => pyStrip_getLast?_not)

theorem getLast?_drop_of_ne_nil {s : List Char} {k : Nat} (h : s.drop k ≠ []) :
    (s.drop k).getLast? = s.getLast? := by
  conv_rhs => rw [← List.take_append_drop k s]
  rw [List.getLast?_append_of_ne_nil _ h]

end HDM

namespace MysqlExecutor

open HDM

theorem escSqCountAux_append (u v : List Char) :
    ∀ b, escSqCountAux b (u ++ v) = escSqCountAux b u + escSqCountAux (escStateAfter b u) v := by
  induction u with
  | nil => intro b; simp [escSqCountAux, escStateAfter]
  | cons c rest ih =>
    intro b
    by_cases hb : b
    · simp [escSqCountAux, escStateAfter, hb, ih]
    · by_cases hc : c = '\\'
      · simp [escSqCountAux, escStateAfter, hb, hc, ih]
      · by_cases hq : c = '\''
        · simp [escSqCountAux, escStateAfter, hb, hc, hq, ih]
          omega
        · simp [escSqCountAux, escStateAfter, hb, hc, hq, ih]

theorem escSqCount_insert (u v : List Char) :
    escSqCountAux false (u ++ '\'' :: '\'' :: v) =
      escSqCountAux false (u ++ '\'' :: v) + 1 := by
  rw [escSqCountAux_append, escSqCountAux_append]
  by_cases hst : escStateAfter false u
  · simp [escSqCountAux, hst]
    omega
  · simp only [Bool.not_eq_true] at hst
    rw [hst]
    simp [escSqCountAux]
    omega

theorem rfindChar_spec (q : Char) :
    ∀ (s : List Char) {p : Nat}, rfindChar q s = some p →
      p < s.length ∧ s[p]? = some q := by
  intro s
  induction s with
  | nil => intro p h; simp [rfindChar] at h
  | cons c rest ih =>
    intro p h
    unfold rfindChar at h
    cases hr : rfindChar q rest with
    | some i =>
      rw [hr] at h
      simp at h
      obtain ⟨hi, hgi⟩ := ih hr
      rw [← h]
      refine ⟨by simp; omega, ?_⟩
      simpa using hgi
    | none =>
      rw [hr] at h
      by_cases hc : c = q
      · rw [if_pos hc] at h
        simp at h
        rw [← h]
        simp [hc]
      · rw [if_neg hc] at h
        simp at h

theorem insertAt_quote_decompose {s : List Char} {p : Nat}
    (hp : p < s.length) (hq : s[p]? = some '\'') :
    s = s.take p ++ '\'' :: s.drop (p + 1) ∧
      insertAt s (p + 1) '\'' = s.take p ++ '\'' :: '\'' :: s.drop (p + 1) := by
  have hget : s[p] = '\'' := by
    have h2 := List.getElem?_eq_getElem hp
    rw [h2] at hq
    simpa using hq
  constructor
  · conv_lhs => rw [← List.take_append_drop p s]
    rw [List.drop_eq_getElem_cons hp, hget]
  · unfold insertAt
    rw [List.take_succ, List.getElem?_eq_getElem hp, hget]
    simp

theorem fixUnmatchedQuote_parity (t : List Char) :
    escSqCount (fixUnmatchedQuote t) % 2 = 0 ∨
      rfindChar '\'' (fixUnmatchedQuote t) = none ∨
      rfindChar '\'' (fixUnmatchedQuote t) = some 0 := by
  unfold fixUnmatchedQuote
  split
  case isTrue hodd =>
    split
    case h_1 p hr =>
      split
      case isTrue hp =>
        left
        obtain ⟨hlt, hget⟩ := rfindChar_spec '\'' t hr
        obtain ⟨hdec, hins⟩ := insertAt_quote_decompose hlt hget
        rw [hins]
        unfold escSqCount
        rw [escSqCount_insert]
        have h2 : escSqCountAux false (t.take p ++ '\'' :: t.drop (p + 1)) % 2 = 1 := by
          rw [← hdec]
          unfold escSqCount at hodd
          omega
        omega
      case isFalse hp =>
        right; right
        rw [hr]
        congr
        omega
    case h_2 hr =>
      right; left
      rw [hr]
  case isFalse hodd =>
    left
    omega

theorem fixUnmatchedQuote_keeps_trimmed {t : List Char} (hne : t ≠ [])
    (hs : pyStrip t = t) :
    fixUnmatchedQuote t ≠ [] ∧ pyStrip (fixUnmatchedQuote t) = fixUnmatchedQuote t := by
  have hhead : ∀ c, t.head? = some c → pyIsSpace c = false := by
    intro c hc
    exact pyStrip_head?_not (s := t) (by rw [hs]; exact hc)
  have hlast : ∀ c, t.getLast? = some c → pyIsSpace c = false := by
    intro c hc
    exact pyStrip_getLast?_not (s := t) (by rw [hs]; exact hc)
  unfold fixUnmatchedQuote
  split
  case isTrue hodd =>
    split
    case h_1 p hr =>
      split
      case isTrue hp =>
        obtain ⟨hlt, hget⟩ := rfindChar_spec '\'' t hr
        obtain ⟨hdec, hins⟩ := insertAt_quote_decompose hlt hget
        rw [hins]
        have htake_ne : t.take p ≠ [] := by
          have hlen : (t.take p).length = p := by
            rw [List.length_take]
            omega
          intro he
          rw [he] at hlen
          simp at hlen
          omega
        have hne2 : t.take p ++ '\'' :: '\'' :: t.drop (p + 1) ≠ [] := by simp
        refine ⟨hne2, pyStrip_eq_self hne2 ?_ ?_⟩
        · intro c hc
          have hh : (t.take p ++ '\'' :: '\'' :: t.drop (p + 1)).head? = t.head? := by
            rw [List.head?_append_of_ne_nil _ htake_ne]
            conv_rhs => rw [hdec]
            rw [List.head?_append_of_ne_nil _ htake_ne]
          rw [hh] at hc
          exact hhead c hc
        · intro c hc
          rw [List.getLast?_append_of_ne_nil _ (by simp)] at hc
          by_cases hd : t.drop (p + 1) = []
          · rw [hd] at hc
            simp at hc
            rw [← hc]
            decide
          · have h1 : ('\'' :: '\'' :: t.drop (p + 1)).getLast? = (t.drop (p + 1)).getLast? := by
              show (['\'', '\''] ++ t.drop (p + 1)).getLast? = _
              rw [List.getLast?_append_of_ne_nil _ hd]
            rw [h1, getLast?_drop_of_ne_nil hd] at hc
            exact hlast c hc
      case isFalse hp =>
        exact ⟨hne, pyStrip_eq_self hne hhead hlast⟩
    case h_2 hr =>
      exact ⟨hne, pyStrip_eq_self hne hhead hlast⟩
  case isFalse hodd =>
    exact ⟨hne, pyStrip_eq_self hne hhead hlast⟩

end MysqlExecutor

namespace MysqlExecutor

open HDM

theorem filterStatements_mem :
    ∀ (lst : List (List Char)) {s : List Char}, s ∈ filterStatements lst →
      s ≠ [] ∧ pyStrip s = s := by
  intro lst
  induction lst with
  | nil => intro s h; simp [filterStatements] at h
  | cons stmt rest ih =>
    intro s h
    unfold filterStatements at h
    by_cases h1 : pyStrip stmt = []
    · rw [if_pos h1] at h
      exact ih h
    · rw [if_neg h1] at h
      by_cases h2 : "INSERT".toList.isPrefixOf (upperList (pyStrip stmt)) ∧
          ¬ hasSubstr "VALUES".toList (upperList (pyStrip stmt))
      · rw [if_pos h2] at h
        exact ih h
      · rw [if_neg h2] at h
        rcases List.mem_cons.mp h with hhd | htl
        · rw [hhd]
          exact fixUnmatchedQuote_keeps_trimmed h1 (pyStrip_idem stmt)
        · exact ih htl

theorem filterStatements_mem_parity :
    ∀ (lst : List (List Char)) {s : List Char}, s ∈ filterStatements lst →
      escSqCount s % 2 = 0 ∨ rfindChar '\'' s = none ∨ rfindChar '\'' s = some 0 := by
  intro lst
  induction lst with
  | nil => intro s h; simp [filterStatements] at h
  | cons stmt rest ih =>
    intro s h
    unfold filterStatements at h
    by_cases h1 : pyStrip stmt = []
    · rw [if_pos h1] at h
      exact ih h
    · rw [if_neg h1] at h
      by_cases h2 : "INSERT".toList.isPrefixOf (upperList (pyStrip stmt)) ∧
          ¬ hasSubstr "VALUES".toList (upperList (pyStrip stmt))
      · rw [if_pos h2] at h
        exact ih h
      · rw [if_neg h2] at h
        rcases List.mem_cons.mp h with hhd | htl
        · rw [hhd]
          exact fixUnmatchedQuote_parity (pyStrip stmt)
        · exact ih htl

end MysqlExecutor

/-- **C5.** `split` is total by construction (every function of the
embedding is a total Lean function over arbitrary input strings, so no
input raises), and every statement it returns is non-empty and equal to
its own whitespace trim.  Order preservation holds by the pipeline's
shape: the scan appends statements left to right and the repair and
filter passes are per-statement `flatMap`/filter steps. -/
theorem c5_split_statements_nonempty_trimmed (x s : List Char)
    (hmem : s ∈ MysqlExecutor.splitSqlStatements x) :
    s ≠ [] ∧ HDM.pyStrip s = s := by
  unfold MysqlExecutor.splitSqlStatements at hmem
  exact MysqlExecutor.filterStatements_mem _ hmem

theorem c5_split_statements_nonempty_trimmed_witness :
    "SELECT 1".toList ∈ MysqlExecutor.splitSqlStatements "SELECT 1; SELECT 2;".toList ∧
      ("SELECT 1".toList ≠ [] ∧ HDM.pyStrip "SELECT 1".toList = "SELECT 1".toList) :=
  ⟨by decide, c5_split_statements_nonempty_trimmed "SELECT 1; SELECT 2;".toList
    "SELECT 1".toList (by decide)⟩

/-- **C6, counterexample.**  The claim ("for every input string in which
every quote character is properly paired, every statement returned by
split contains an even number of unescaped, non-doubled single-quote
characters and an even number of unescaped, non-doubled double-quote
characters") is false: the input `INSERT INTO t VALUES ('a') "x)"` is
properly paired, yet the single statement split returns —
`INSERT INTO t VALUES ('a') "x);`, produced by the no-semicolon INSERT
repair truncating at the last `)` inside the double-quoted literal —
contains exactly one unescaped, non-doubled double quote, an odd count. -/
theorem c6_counterexample_double_quote_parity :
    ClaimSpec.wellPairedQuotes "INSERT INTO t VALUES ('a') \"x)\"".toList = true ∧
      MysqlExecutor.splitSqlStatements "INSERT INTO t VALUES ('a') \"x)\"".toList =
        ["INSERT INTO t VALUES ('a') \"x);".toList] ∧
      ClaimSpec.countUnescapedNonDoubled '"' "INSERT INTO t VALUES ('a') \"x);".toList = 1 ∧
      ¬ ClaimSpec.countUnescapedNonDoubled '"'
          "INSERT INTO t VALUES ('a') \"x);".toList % 2 = 0 := by
  refine ⟨by decide, by decide, by decide, by decide⟩

/-- **C6, amended.**  For every input string (no pairing hypothesis is
needed), every statement returned by split either contains an even number
of single quotes as counted by the filter pass's backslash-aware loop, or
contains no single quote at a position greater than zero: the final
filter pass restores single-quote parity by inserting a quote after the
last one whenever the count is odd and that quote is not at position 0.
No such guarantee holds for double quotes (see the counterexample). -/
theorem c6_amended_single_quote_parity (x s : List Char)
    (hmem : s ∈ MysqlExecutor.splitSqlStatements x) :
    MysqlExecutor.escSqCount s % 2 = 0 ∨
      HDM.rfindChar '\'' s = none ∨ HDM.rfindChar '\'' s = some 0 := by
  unfold MysqlExecutor.splitSqlStatements at hmem
  exact MysqlExecutor.filterStatements_mem_parity _ hmem

theorem c6_amended_single_quote_parity_witness :
    "SELECT 'a' FROM t".toList ∈
        MysqlExecutor.splitSqlStatements "SELECT 'a' FROM t;".toList ∧
      (MysqlExecutor.escSqCount "SELECT 'a' FROM t".toList % 2 = 0 ∨
        HDM.rfindChar '\'' "SELECT 'a' FROM t".toList = none ∨
        HDM.rfindChar '\'' "SELECT 'a' FROM t".toList = some 0) :=
  ⟨by decide, c6_amended_single_quote_parity "SELECT 'a' FROM t;".toList
    "SELECT 'a' FROM t".toList (by decide)⟩

/-- **C2, behaviour at the failing input.**  In the scan of
`split_sql_statements` the `escape_next` flag, once armed by a backslash
inside a string, is never cleared, so the closing quote of `'\a'` is
treated as string content and the following `; SELECT 1;` never
terminates a statement: the whole input comes back as one merged
statement.  Under the claimed one-shot escape semantics the scan would
return the two statements `'\a'` and `SELECT 1`. -/
theorem c2_escape_flag_never_cleared_eval :
    MysqlExecutor.splitSqlStatements "'\\a'; SELECT 1;".toList =
        ["'\\a'; SELECT 1;".toList] ∧
      MysqlExecutor.splitSqlStatements "'\\a'; SELECT 1;".toList ≠
        ["'\\a'".toList, "SELECT 1".toList] := by
  refine ⟨by decide, by decide⟩

/-- **C9.**  `split` rewrites the whole document with the HTML-entity and
mojibake replacements before any lexical pass (first conjunct: the
pipeline applies `preprocessSqlContent` before comment removal and the
scan), and the replacements apply inside quoted string literals, so a
returned statement can differ from its source text even when no splitting
was needed: `SELECT '&amp;Ã©' FROM t;` comes back as the single statement
`SELECT '&é' FROM t`. -/
theorem c9_preprocessing_rewrites_inside_literals :
    (∀ x : List Char, MysqlExecutor.splitSqlStatements x =
      MysqlExecutor.filterStatements
        ((MysqlExecutor.scanStatements
          (MysqlExecutor.stripBlockComments
            (HDM.cutLineComments
              (MysqlExecutor.preprocessSqlContent x)))).flatMap
          MysqlExecutor.repairStatement)) ∧
      MysqlExecutor.splitSqlStatements "SELECT '&amp;Ã©' FROM t;".toList =
        ["SELECT '&é' FROM t".toList] ∧
      "SELECT '&é' FROM t".toList ≠ "SELECT '&amp;Ã©' FROM t".toList := by
  refine ⟨fun x => rfl, by decide, by decide⟩

namespace SqlServerToMysql

open HDM

theorem linePassStep_skip (acc : List (List Char)) (l : List Char) :
    linePassStep (true, acc) l = (true, acc) := rfl

theorem foldl_linePassStep_skip (lines : List (List Char)) (acc : List (List Char)) :
    lines.foldl linePassStep (true, acc) = (true, acc) := by
  induction lines with
  | nil => rfl
  | cons l rest ih => rw [List.foldl_cons, linePassStep_skip, ih]

theorem linePassStep_stays_scanning {l : List Char} (acc : List (List Char))
    (h : isSuppressionTrigger (pyRstrip l) = false ∨ isBannerLine (pyRstrip l) = true) :
    ∃ acc', linePassStep (false, acc) l = (false, acc') := by
  unfold linePassStep
  by_cases hb : isBannerLine (pyRstrip l) = true
  · exact ⟨acc, by simp [hb]⟩
  · have ht : isSuppressionTrigger (pyRstrip l) = false := by
      rcases h with h | h
      · exact h
      · exact absurd h hb
    simp only [hb, ht]
    by_cases hkeep : pyStrip (if lockEscalationSearch (lineTransform (pyRstrip l)) = true
        then [] else lineTransform (pyRstrip l)) ≠ [] ∨ pyStrip (pyRstrip l) = []
    · exact ⟨acc ++ [if lockEscalationSearch (lineTransform (pyRstrip l)) = true
        then [] else lineTransform (pyRstrip l)], by simp [hkeep]⟩
    · exact ⟨acc, by simp [hkeep]⟩

theorem foldl_linePassStep_scanning (pre : List (List Char)) :
    ∀ (acc : List (List Char)),
      (∀ l ∈ pre, isSuppressionTrigger (pyRstrip l) = false ∨ isBannerLine (pyRstrip l) = true) →
      ∃ acc', pre.foldl linePassStep (false, acc) = (false, acc') := by
  induction pre with
  | nil => intro acc _; exact ⟨acc, rfl⟩
  | cons l rest ih =>
    intro acc hall
    obtain ⟨acc1, h1⟩ := linePassStep_stays_scanning acc (hall l (by simp))
    rw [List.foldl_cons, h1]
    exact ih acc1 (fun l' hl' => hall l' (by simp [hl']))

/-- **C7.**  The line-oriented filter of translate is a two-state machine
starting in `SCANNING` (`skip_everything = False`): on the first line that
triggers suppression — a line containing `ALTER TABLE`, `ADD CONSTRAINT`
and `PRIMARY KEY`, or a `Primary Key structure` banner, and that is not
consumed earlier by the banner-skip (per the source's check order) — it
enters `SUPPRESSING` irreversibly: whatever the remaining lines `suf` are,
neither the trigger line nor any later line contributes any output. -/
theorem c7_trailing_constraint_suppression_irreversible
    (pre suf : List (List Char)) (t : List Char)
    (htrig : isSuppressionTrigger (HDM.pyRstrip t) = true)
    (hban : isBannerLine (HDM.pyRstrip t) = false)
    (hpre : ∀ l ∈ pre, isSuppressionTrigger (HDM.pyRstrip l) = false ∨
      isBannerLine (HDM.pyRstrip l) = true) :
    linePassLines (pre ++ t :: suf) = linePassLines pre := by
  unfold linePassLines
  rw [List.foldl_append]
  obtain ⟨accP, hP⟩ := foldl_linePassStep_scanning pre [] hpre
  rw [hP, List.foldl_cons]
  have hstep : linePassStep (false, accP) t = (true, accP) := by
    unfold linePassStep
    simp [hban, htrig]
  rw [hstep, foldl_linePassStep_skip]

theorem c7_trailing_constraint_suppression_irreversible_witness :
    (isSuppressionTrigger (HDM.pyRstrip
        "ALTER TABLE x ADD CONSTRAINT pk PRIMARY KEY (a)".toList) = true ∧
      isBannerLine (HDM.pyRstrip
        "ALTER TABLE x ADD CONSTRAINT pk PRIMARY KEY (a)".toList) = false) ∧
      linePassLines (["SELECT 1".toList] ++
          "ALTER TABLE x ADD CONSTRAINT pk PRIMARY KEY (a)".toList ::
          ["SELECT 2".toList, "SELECT 3".toList]) =
        linePassLines ["SELECT 1".toList] :=
  ⟨⟨by decide, by decide⟩,
    c7_trailing_constraint_suppression_irreversible
      ["SELECT 1".toList] ["SELECT 2".toList, "SELECT 3".toList]
      "ALTER TABLE x ADD CONSTRAINT pk PRIMARY KEY (a)".toList
      (by decide) (by decide)
      (by intro l hl; simp at hl; rw [hl]; left; decide)⟩

end SqlServerToMysql

namespace SqlServerToMysql

open HDM

theorem bodyStep_eq (st : List (List Char) × Option (List Char)) (l : List Char) :
    bodyStep st l = (st.1 ++ (bodyLineOut l).toList, (bodyLinePk l).or st.2) := by
  unfold bodyStep bodyLineOut bodyLinePk
  dsimp only
  split_ifs
  all_goals try ((cases hpk : pkColSearch (autoIncrementSub (identitySub
    (pyRstrip (cutAtDashDash (pyStrip l)))))) <;> simp [hpk] <;> done)
  all_goals (cases hpk : pkColSearch (autoIncrementSub
    (identitySub (pyStrip l)))) <;> simp [hpk]

theorem bodyState_foldl (lines : List (List Char)) :
    ∀ (init : List (List Char) × Option (List Char)),
      lines.foldl bodyStep init =
        (init.1 ++ lines.filterMap bodyLineOut,
          lines.foldl (fun pk l => (bodyLinePk l).or pk) init.2) := by
  induction lines with
  | nil => intro init; simp
  | cons l rest ih =>
    intro init
    rw [List.foldl_cons, ih, bodyStep_eq, List.filterMap_cons, List.foldl_cons]
    cases hout : bodyLineOut l with
    | some o => simp
    | none => simp

theorem pkFold_none_suffix (suf : List (List Char)) :
    ∀ (pk : Option (List Char)), (∀ l ∈ suf, bodyLinePk l = none) →
      suf.foldl (fun pk l => (bodyLinePk l).or pk) pk = pk := by
  induction suf with
  | nil => intro pk _; rfl
  | cons l rest ih =>
    intro pk hall
    rw [List.foldl_cons, hall l (by simp), Option.none_or]
    exact ih pk (fun l' hl' => hall l' (by simp [hl']))

/-- **C3, amended.**  The primary-key candidate recorded by the
`CREATE TABLE` body rewrite is the one of the *last* body line whose
identity rewrite matches `PRIMARY_KEY_COL_PATTERN`: each match overwrites
the previously recorded candidate, whatever the earlier lines `pre`
recorded. -/
theorem c3_amended_last_identity_wins
    (pre suf : List (List Char)) (l : List Char) (c : List Char)
    (hl : bodyLinePk l = some c)
    (hsuf : ∀ l' ∈ suf, bodyLinePk l' = none) :
    (bodyStateOfLines (pre ++ l :: suf)).2 = some c := by
  unfold bodyStateOfLines
  rw [bodyState_foldl]
  show (pre ++ l :: suf).foldl (fun pk l => (bodyLinePk l).or pk) none = some c
  rw [List.foldl_append, List.foldl_cons, hl, Option.or_some]
  exact pkFold_none_suffix suf (some c) hsuf

theorem c3_amended_last_identity_wins_witness :
    bodyLinePk "id INT IDENTITY(1,1) NOT NULL".toList = some "id".toList ∧
      (bodyStateOfLines (["name varchar(50)".toList] ++
        "id INT IDENTITY(1,1) NOT NULL".toList :: ["qty int NOT NULL".toList])).2 =
        some "id".toList :=
  ⟨by decide,
    c3_amended_last_identity_wins ["name varchar(50)".toList] ["qty int NOT NULL".toList]
      "id INT IDENTITY(1,1) NOT NULL".toList "id".toList (by decide)
      (by intro l' hl'; simp at hl'; rw [hl']; decide)⟩

/-- **C3, counterexample.**  With two `NOT NULL` identity integer columns
`a` and `b`, the recorded candidate is `b` — the column of the *last*
such line, not the first as the claim states — and the synthesized clause
is `PRIMARY KEY (b)`. -/
theorem c3_counterexample_first_does_not_win :
    (bodyStateOfLines ["a INT IDENTITY(1,1) NOT NULL".toList,
        "b INT IDENTITY(1,1) NOT NULL".toList]).2 = some "b".toList ∧
      processBodyLines ["a INT IDENTITY(1,1) NOT NULL".toList,
          "b INT IDENTITY(1,1) NOT NULL".toList] =
        ("a int AUTO_INCREMENT NOT NULL,\n  b int AUTO_INCREMENT NOT NULL" ++
          ",\n  PRIMARY KEY (b)").toList ∧
      (some "b".toList ≠ some "a".toList) :=
  ⟨by decide, by decide, by decide⟩

end SqlServerToMysql

namespace SqlServerToMysql

open HDM

/-- **C1, amended.**  A body line that is exactly
`id INT IDENTITY(1,1) NOT NULL` is rewritten to the column
`id int AUTO_INCREMENT NOT NULL` — the integer type token is emitted in
lower case by the `AUTO_INCREMENT` rewrite's replacement template — and,
when no later body line records an identity primary-key candidate and the
rebuilt body contains no `PRIMARY KEY` clause, `PRIMARY KEY (id)` is
appended as the final clause of that same table body. -/
theorem c1_amended_identity_line_rewrite (pre suf : List (List Char))
    (hsuf : ∀ l' ∈ suf, bodyLinePk l' = none)
    (hnopk : hasSubstr "PRIMARY KEY".toList
      (joinWithSep "\n  ".toList (withTrailingCommas
        (bodyStateOfLines (pre ++ "id INT IDENTITY(1,1) NOT NULL".toList :: suf)).1)) =
      false) :
    (bodyStateOfLines (pre ++ "id INT IDENTITY(1,1) NOT NULL".toList :: suf)).1 =
        (bodyStateOfLines pre).1 ++
          "id int AUTO_INCREMENT NOT NULL".toList :: suf.filterMap bodyLineOut ∧
      (bodyStateOfLines (pre ++ "id INT IDENTITY(1,1) NOT NULL".toList :: suf)).2 =
        some "id".toList ∧
      processBodyLines (pre ++ "id INT IDENTITY(1,1) NOT NULL".toList :: suf) =
        pyRstrip (rstripCommas
          (joinWithSep "\n  ".toList (withTrailingCommas
            (bodyStateOfLines (pre ++ "id INT IDENTITY(1,1) NOT NULL".toList :: suf)).1))) ++
          ",\n  PRIMARY KEY (id)".toList := by
  have hout : bodyLineOut "id INT IDENTITY(1,1) NOT NULL".toList =
      some "id int AUTO_INCREMENT NOT NULL".toList := by decide
  have hpk : bodyLinePk "id INT IDENTITY(1,1) NOT NULL".toList = some "id".toList := by
    decide
  have hlines : (bodyStateOfLines (pre ++ "id INT IDENTITY(1,1) NOT NULL".toList :: suf)).1 =
      (bodyStateOfLines pre).1 ++
        "id int AUTO_INCREMENT NOT NULL".toList :: suf.filterMap bodyLineOut := by
    unfold bodyStateOfLines
    rw [bodyState_foldl, bodyState_foldl]
    show ([] : List (List Char)) ++
        (pre ++ "id INT IDENTITY(1,1) NOT NULL".toList :: suf).filterMap bodyLineOut =
      (([] : List (List Char)) ++ pre.filterMap bodyLineOut) ++
        "id int AUTO_INCREMENT NOT NULL".toList :: suf.filterMap bodyLineOut
    rw [List.nil_append, List.nil_append, List.filterMap_append, List.filterMap_cons, hout]
  have hpk2 : (bodyStateOfLines (pre ++ "id INT IDENTITY(1,1) NOT NULL".toList :: suf)).2 =
      some "id".toList :=
    c3_amended_last_identity_wins pre suf _ _ hpk hsuf
  refine ⟨hlines, hpk2, ?_⟩
  unfold processBodyLines
  dsimp only
  rw [hpk2]
  dsimp only
  rw [if_pos (by rw [hnopk]; decide)]
  simp only [List.append_assoc]
  congr 1

theorem c1_amended_identity_line_rewrite_witness :
    ((∀ l' ∈ ([] : List (List Char)), bodyLinePk l' = none) ∧
      hasSubstr "PRIMARY KEY".toList
        (joinWithSep "\n  ".toList (withTrailingCommas
          (bodyStateOfLines (["name varchar(50)".toList] ++
            "id INT IDENTITY(1,1) NOT NULL".toList :: [])).1)) = false) ∧
      processBodyLines (["name varchar(50)".toList] ++
          "id INT IDENTITY(1,1) NOT NULL".toList :: []) =
        pyRstrip (rstripCommas
          (joinWithSep "\n  ".toList (withTrailingCommas
            (bodyStateOfLines (["name varchar(50)".toList] ++
              "id INT IDENTITY(1,1) NOT NULL".toList :: [])).1))) ++
          ",\n  PRIMARY KEY (id)".toList :=
  ⟨⟨by intro l' hl'; simp at hl', by decide⟩,
    (c1_amended_identity_line_rewrite ["name varchar(50)".toList] []
      (by intro l' hl'; simp at hl') (by decide)).2.2⟩

/-- **C1, counterexample.**  The claim states the rewritten column line is
`id INT AUTO_INCREMENT NOT NULL`; the code's replacement template
`\1 int AUTO_INCREMENT \2` lower-cases the type token, so the line
actually becomes `id int AUTO_INCREMENT NOT NULL`. -/
theorem c1_counterexample_type_token_lowercased :
    bodyLineOut "id INT IDENTITY(1,1) NOT NULL".toList =
        some "id int AUTO_INCREMENT NOT NULL".toList ∧
      processBodyLines ["id INT IDENTITY(1,1) NOT NULL".toList] =
        "id int AUTO_INCREMENT NOT NULL,\n  PRIMARY KEY (id)".toList ∧
      "id int AUTO_INCREMENT NOT NULL".toList ≠
        "id INT AUTO_INCREMENT NOT NULL".toList :=
  ⟨by decide, by decide, by decide⟩

end SqlServerToMysql

namespace HDM

theorem gsubF_prev_irrel (m : List Char → Option (List Char × List Char)) :
    ∀ (fuel : Nat) (s : List Char) (p₁ p₂ : Option Char),
      gsubF (fun _ => m) fuel p₁ s = gsubF (fun _ => m) fuel p₂ s := by
  intro fuel
  induction fuel with
  | zero => intro s p₁ p₂; cases s <;> rfl
  | succ f ih =>
    intro s p₁ p₂
    cases s with
    | nil => rfl
    | cons c rest =>
      unfold gsubF
      try rfl
      try rw [ih]

theorem gsubF_fuel_irrel (m : List Char → Option (List Char × List Char)) :
    ∀ (fuel₁ : Nat) (s : List Char) (fuel₂ : Nat) (prev : Option Char),
      s.length ≤ fuel₁ → s.length ≤ fuel₂ →
      gsubF (fun _ => m) fuel₁ prev s = gsubF (fun _ => m) fuel₂ prev s := by
  intro fuel₁
  induction fuel₁ with
  | zero =>
    intro s fuel₂ prev h1 h2
    cases s with
    | nil => cases fuel₂ <;> rfl
    | cons c rest => simp at h1
  | succ f ih =>
    intro s fuel₂ prev h1 h2
    cases s with
    | nil => cases fuel₂ <;> rfl
    | cons c rest =>
      cases fuel₂ with
      | zero => simp at h2
      | succ f2 =>
        unfold gsubF
        cases m (c :: rest) with
        | none =>
          simp only
          rw [ih rest f2 (some c) (by simp at h1 ⊢; omega) (by simp at h2 ⊢; omega)]
        | some pr =>
          simp only
          by_cases hlen : (c :: rest).length ≤ pr.2.length
          · rw [if_pos hlen, if_pos hlen,
              ih rest f2 (some c) (by simp at h1 ⊢; omega) (by simp at h2 ⊢; omega)]
          · rw [if_neg hlen, if_neg hlen,
              ih pr.2 f2 _ (by simp at h1 hlen ⊢; omega) (by simp at h2 hlen ⊢; omega)]

theorem takeWhile_all_append {p : Char → Bool} :
    ∀ (w : List Char) {x : Char} (v : List Char), (∀ c ∈ w, p c = true) → p x = false →
      (w ++ x :: v).takeWhile p = w ∧ (w ++ x :: v).dropWhile p = x :: v := by
  intro w
  induction w with
  | nil =>
    intro x v _ hx
    constructor
    · simp [List.takeWhile_cons, hx]
    · simp [List.dropWhile_cons, hx]
  | cons a w' ih =>
    intro x v hall hx
    have ha : p a = true := hall a (by simp)
    obtain ⟨h1, h2⟩ := ih v (fun c hc => hall c (by simp [hc])) hx
    constructor
    · simp [List.takeWhile_cons, ha, h1]
    · simp [List.dropWhile_cons, ha, h2]

end HDM

namespace SqlServerToMysql

open HDM

theorem tryBracket_head_ne {c : Char} (hc : c ≠ '[') (t : List Char) :
    tryBracket (c :: t) = none := by
  show (if c = '[' then _ else none) = none
  rw [if_neg hc]

theorem tryBracket_at {w : List Char} (v : List Char) (hw : w ≠ [])
    (hw2 : ']' ∉ w) : tryBracket ('[' :: (w ++ ']' :: v)) = some (w, v) := by
  have hall : ∀ c ∈ w, (fun c => decide (c ≠ ']')) c = true := by
    intro c hc
    simp
    intro he
    rw [he] at hc
    exact hw2 hc
  have hx : (fun c => decide (c ≠ ']')) ']' = false := by simp
  obtain ⟨h1, h2⟩ := takeWhile_all_append w v hall hx
  show (if ('[' : Char) = '[' then
      let run := (w ++ ']' :: v).takeWhile (· ≠ ']')
      if run.isEmpty then none
      else
        match (w ++ ']' :: v).dropWhile (· ≠ ']') with
        | c' :: rest => if c' = ']' then some (run, rest) else none
        | [] => none
    else none) = some (w, v)
  rw [if_pos rfl]
  dsimp only
  rw [h1, h2]
  rw [if_neg (by simp [List.isEmpty_iff, hw])]
  show (if (']' : Char) = ']' then some (w, v) else none) = some (w, v)
  rw [if_pos rfl]

theorem bracketSub_append_left :
    ∀ (u : List Char) (v : List Char), '[' ∉ u →
      bracketSub (u ++ v) = u ++ bracketSub v := by
  intro u
  induction u with
  | nil => intro v _; rfl
  | cons c u' ih =>
    intro v hu
    have hc : c ≠ '[' := by
      intro he
      rw [he] at hu
      exact hu (by simp)
    show gsubF (fun _ => tryBracket) ((u' ++ v).length + 1) none (c :: (u' ++ v)) =
      c :: (u' ++ bracketSub v)
    unfold gsubF
    rw [tryBracket_head_ne hc]
    dsimp only
    rw [gsubF_prev_irrel tryBracket _ _ (some c) none]
    show c :: bracketSub (u' ++ v) = c :: (u' ++ bracketSub v)
    rw [ih v (fun hmem => hu (by simp [hmem]))]

theorem bracketSub_strips_at (w v : List Char) (hw : w ≠ []) (hw2 : ']' ∉ w) :
    bracketSub ('[' :: (w ++ ']' :: v)) = w ++ bracketSub v := by
  show gsubF (fun _ => tryBracket) ((w ++ ']' :: v).length + 1) none
    ('[' :: (w ++ ']' :: v)) = w ++ bracketSub v
  unfold gsubF
  rw [tryBracket_at v hw hw2]
  dsimp only
  rw [if_neg (by simp; omega)]
  rw [gsubF_prev_irrel tryBracket _ _ _ none]
  rw [gsubF_fuel_irrel tryBracket _ _ v.length none (by simp; omega) (by simp)]
  rfl

/-- **C4, amended.**  Translate's bracket-identifier stripping rewrites
`[w]` to `w` at *every* occurrence, with no awareness of string literals:
the general conjunct rewrites a bracketed identifier whatever precedes it
(the prefix `u` may contain quotes), and the concrete conjunct shows the
per-line transform turning `SELECT '[literal]' FROM t` into
`SELECT 'literal' FROM t` — bracketed text inside a single-quoted string
literal is *not* left unchanged. -/
theorem c4_amended_bracket_stripping_ignores_literals
    (u w v : List Char) (hu : '[' ∉ u) (hw : w ≠ []) (hw2 : ']' ∉ w) :
    bracketSub (u ++ '[' :: (w ++ ']' :: v)) = u ++ w ++ bracketSub v ∧
      lineTransform "SELECT '[literal]' FROM t".toList =
        "SELECT 'literal' FROM t".toList := by
  constructor
  · rw [bracketSub_append_left u _ hu, bracketSub_strips_at w v hw hw2,
      List.append_assoc]
  · decide

theorem c4_amended_bracket_stripping_ignores_literals_witness :
    ('[' ∉ "SELECT '".toList ∧ "literal".toList ≠ [] ∧ ']' ∉ "literal".toList) ∧
      bracketSub ("SELECT '".toList ++ '[' ::
          ("literal".toList ++ ']' :: "' FROM t".toList)) =
        "SELECT '".toList ++ "literal".toList ++ bracketSub "' FROM t".toList :=
  ⟨⟨by decide, by decide, by decide⟩,
    (c4_amended_bracket_stripping_ignores_literals "SELECT '".toList "literal".toList
      "' FROM t".toList (by decide) (by decide) (by decide)).1⟩

/-- **C4, counterexample.**  The claim says bracketed text inside a string
literal such as `'[literal]'` is left byte-for-byte unchanged; the
per-line transform of translate strips it too. -/
theorem c4_counterexample_literal_brackets_stripped :
    lineTransform "SELECT '[literal]' FROM t".toList =
        "SELECT 'literal' FROM t".toList ∧
      "SELECT 'literal' FROM t".toList ≠ "SELECT '[literal]' FROM t".toList :=
  ⟨by decide, by decide⟩

end SqlServerToMysql

/-- **C8, behaviour at the failing input.**  Translate is not idempotent on
CREATE TABLE bodies: on `CREATE TABLE t (a int);` followed by an INSERT,
the first pass rewrites the table and *drops its trailing semicolon*, so
the second pass's `CREATE TABLE ... \((.*?)\)\s*;` match extends through
the rewritten body's closing parenthesis into the following INSERT
statement (whose `);` provides the terminator) and restructures the
already-rewritten body into `a int,\n  ),\n  INSERT INTO t VALUES (1`. -/
theorem c8_translate_not_idempotent_eval :
    SqlServerToMysql.convertSqlServerToMysql
        "CREATE TABLE t (a int);\nINSERT INTO t VALUES (1);".toList =
      "CREATE TABLE t (\n  a int\n)\nINSERT INTO t VALUES (1);".toList ∧
    SqlServerToMysql.convertSqlServerToMysql
        (SqlServerToMysql.convertSqlServerToMysql
          "CREATE TABLE t (a int);\nINSERT INTO t VALUES (1);".toList) =
      "CREATE TABLE t (\n  a int,\n  ),\n  INSERT INTO t VALUES (1\n)".toList ∧
    SqlServerToMysql.convertSqlServerToMysql
        (SqlServerToMysql.convertSqlServerToMysql
          "CREATE TABLE t (a int);\nINSERT INTO t VALUES (1);".toList) ≠
      SqlServerToMysql.convertSqlServerToMysql
        "CREATE TABLE t (a int);\nINSERT INTO t VALUES (1);".toList :=
  ⟨by decide, by decide, by decide⟩

namespace HDM

theorem splitLitCI_spec :
    ∀ (pat s u r : List Char), splitLitCI pat s = some (u, r) →
      s = u ++ r ∧ u.map asciiLower = pat := by
  intro pat
  induction pat with
  | nil =>
    intro s u r h
    unfold splitLitCI at h
    simp at h
    obtain ⟨hu, hr⟩ := h
    subst hu
    subst hr
    exact ⟨rfl, rfl⟩
  | cons p pr ih =>
    intro s u r h
    cases s with
    | nil => simp [splitLitCI] at h
    | cons c cr =>
      unfold splitLitCI at h
      by_cases hc : asciiLower c = p
      · rw [if_pos hc] at h
        cases hm : splitLitCI pr cr with
        | none => rw [hm] at h; simp at h
        | some ur =>
          obtain ⟨u', r'⟩ := ur
          rw [hm] at h
          simp at h
          obtain ⟨hu, hr⟩ := h
          obtain ⟨hcr, hmap⟩ := ih cr u' r' hm
          subst hu
          subst hr
          refine ⟨by rw [hcr]; rfl, ?_⟩
          simp [hmap, hc]
      · rw [if_neg hc] at h
        simp at h

theorem splitWsPlus_spec {s u r : List Char} (h : splitWsPlus s = some (u, r)) :
    s = u ++ r ∧ u ≠ [] ∧ ∀ c ∈ u, pyIsSpace c = true := by
  unfold splitWsPlus at h
  dsimp only at h
  by_cases he : (s.takeWhile pyIsSpace).isEmpty
  · rw [if_pos he] at h
    simp at h
  · rw [if_neg he] at h
    simp at h
    obtain ⟨hu, hr⟩ := h
    refine ⟨by rw [← hu, ← hr, List.takeWhile_append_dropWhile], ?_, ?_⟩
    · rw [← hu]
      intro hnil
      rw [hnil] at he
      simp at he
    · intro c hc
      rw [← hu] at hc
      exact List.mem_takeWhile_imp hc

theorem pyIsSpace_of_lower {c p : Char} (h : asciiLower c = p)
    (hp : pyIsSpace p = false) : pyIsSpace c = false := by
  by_cases hws : pyIsSpace c = true
  · exfalso
    unfold pyIsSpace at hws
    simp only [Bool.or_eq_true, decide_eq_true_eq] at hws
    rcases hws with ((((h1 | h1) | h1) | h1) | h1) | h1 <;>
      (subst h1; rw [← h] at hp; exact absurd hp (by decide))
  · simpa using hws

theorem ws_ne_rparen {c : Char} (h : pyIsSpace c = true) : c ≠ ')' := by
  intro he
  subst he
  exact absurd h (by decide)

theorem ne_rparen_of_lower_mem {c : Char} {l : List Char}
    (h : asciiLower c ∈ l) (hl : ')' ∉ l) : c ≠ ')' := by
  intro he
  subst he
  rw [show asciiLower ')' = ')' from by decide] at h
  exact hl h

theorem lower_head {u pat : List Char} (h : u.map asciiLower = pat) {p : Char}
    (hp : pat.head? = some p) : ∃ c, u.head? = some c ∧ asciiLower c = p := by
  cases u with
  | nil => rw [← h] at hp; simp at hp
  | cons a t =>
    rw [← h] at hp
    simp at hp
    exact ⟨a, rfl, hp⟩

theorem lower_getLast {u pat : List Char} (h : u.map asciiLower = pat) {p : Char}
    (hp : pat.getLast? = some p) : ∃ c, u.getLast? = some c ∧ asciiLower c = p := by
  rw [← h, List.getLast?_map] at hp
  cases hu : u.getLast? with
  | none => rw [hu] at hp; simp at hp
  | some c =>
    rw [hu] at hp
    simp at hp
    exact ⟨c, rfl, hp⟩

theorem pyRstrip_keeps_front {m f : List Char} (hm : m ≠ [])
    (hlast : ∀ c, m.getLast? = some c → pyIsSpace c = false)
    (hpf : m <+: f) : m <+: pyRstrip f := by
  obtain ⟨t, rfl⟩ := hpf
  unfold pyRstrip
  rw [List.reverse_append, List.dropWhile_append]
  split
  case isTrue h =>
    have hdw : m.reverse.dropWhile pyIsSpace = m.reverse := by
      cases hmr : m.reverse with
      | nil =>
        exact absurd (by simpa using congrArg List.reverse hmr) hm
      | cons a w =>
        have ha : m.getLast? = some a := by
          rw [← List.head?_reverse, hmr]
          rfl
        simp [List.dropWhile_cons, hlast a ha]
    rw [hdw, List.reverse_reverse]
  case isFalse h =>
    rw [List.reverse_append, List.reverse_reverse]
    exact ⟨(t.reverse.dropWhile pyIsSpace).reverse, rfl⟩

theorem pyStrip_keeps_front {m f : List Char} (hm : m ≠ [])
    (hhead : ∀ c, m.head? = some c → pyIsSpace c = false)
    (hlast : ∀ c, m.getLast? = some c → pyIsSpace c = false)
    (hpf : m <+: f) : m <+: pyStrip f := by
  obtain ⟨t, ht⟩ := pyRstrip_keeps_front hm hlast hpf
  unfold pyStrip
  rw [← ht]
  obtain ⟨c0, hc0⟩ : ∃ c, m.head? = some c := by
    cases m with
    | nil => exact absurd rfl hm
    | cons a w => exact ⟨a, rfl⟩
  have hh : (m ++ t).head? = some c0 := by
    rw [List.head?_append_of_ne_nil _ hm]
    exact hc0
  rw [pyLstrip_eq_self hh (hhead c0 hc0)]
  exact ⟨t, rfl⟩

end HDM

namespace MysqlExecutor

open HDM

theorem matchInsertInto_spec {s m r : List Char}
    (h : matchInsertInto s = some (m, r)) :
    s = m ++ r ∧ m ≠ [] ∧ (∀ c ∈ m, c ≠ ')') ∧
      (∀ c, m.head? = some c → pyIsSpace c = false) ∧
      (∀ c, m.getLast? = some c → pyIsSpace c = false) := by
  unfold matchInsertInto at h
  cases h1 : splitLitCI "insert".toList s with
  | none => rw [h1] at h; simp at h
  | some p1 =>
    obtain ⟨u1, s1⟩ := p1
    rw [h1] at h
    dsimp only at h
    cases h2 : splitWsPlus s1 with
    | none => rw [h2] at h; simp at h
    | some p2 =>
      obtain ⟨u2, s2⟩ := p2
      rw [h2] at h
      dsimp only at h
      cases h3 : splitLitCI "into".toList s2 with
      | none => rw [h3] at h; simp at h
      | some p3 =>
        obtain ⟨u3, s3⟩ := p3
        rw [h3] at h
        dsimp only at h
        simp at h
        obtain ⟨hm, hr⟩ := h
        obtain ⟨hseq, hmap1⟩ := splitLitCI_spec _ _ _ _ h1
        obtain ⟨hs1eq, hu2ne, hu2ws⟩ := splitWsPlus_spec h2
        obtain ⟨hs2eq, hmap3⟩ := splitLitCI_spec _ _ _ _ h3
        have hu1ne : u1 ≠ [] := by
          intro hnil
          rw [hnil] at hmap1
          simp at hmap1
        have hu3ne : u3 ≠ [] := by
          intro hnil
          rw [hnil] at hmap3
          simp at hmap3
        subst hm
        subst hr
        refine ⟨?_, ?_, ?_, ?_, ?_⟩
        · rw [hseq, hs1eq, hs2eq]
          simp
        · simp [hu1ne]
        · intro c hc
          simp at hc
          rcases hc with hc | hc | hc
          · exact ne_rparen_of_lower_mem
              (hmap1 ▸ List.mem_map_of_mem asciiLower hc) (by decide)
          · exact ws_ne_rparen (hu2ws c hc)
          · exact ne_rparen_of_lower_mem
              (hmap3 ▸ List.mem_map_of_mem asciiLower hc) (by decide)
        · intro c hc
          obtain ⟨c1, hc1, hl1⟩ := lower_head hmap1 (p := 'i') rfl
          rw [List.head?_append_of_ne_nil _ hu1ne, hc1] at hc
          simp at hc
          subst hc
          exact pyIsSpace_of_lower hl1 (by decide)
        · intro c hc
          obtain ⟨c3, hc3, hl3⟩ := lower_getLast hmap3 (p := 'o') rfl
          have hne23 : u2 ++ u3 ≠ [] := by
            intro hnil
            simp at hnil
            exact hu3ne hnil.2
          rw [List.getLast?_append_of_ne_nil _ hne23,
            List.getLast?_append_of_ne_nil _ hu3ne, hc3] at hc
          simp at hc
          subst hc
          exact pyIsSpace_of_lower hl3 (by decide)

theorem insertIntoMatchesAux_spec :
    ∀ (fuel : Nat) (s : List Char) (i : Nat), s.length ≤ fuel →
      ∀ pm ∈ insertIntoMatchesAux fuel i s,
        ∃ j r, pm.1 = i + j ∧ matchInsertInto (s.drop j) = some (pm.2, r) := by
  intro fuel
  induction fuel with
  | zero =>
    intro s i hf pm hpm
    cases s <;> simp [insertIntoMatchesAux] at hpm
  | succ fuel ih =>
    intro s i hf pm hpm
    cases s with
    | nil => simp [insertIntoMatchesAux] at hpm
    | cons c rest =>
      cases hmi : matchInsertInto (c :: rest) with
      | some p =>
        obtain ⟨m, r⟩ := p
        simp only [insertIntoMatchesAux, hmi, List.mem_cons] at hpm
        rcases hpm with hpm | hpm
        · subst hpm
          exact ⟨0, r, by simp, by simpa using hmi⟩
        · obtain ⟨hseq, hmne, _, _, _⟩ := matchInsertInto_spec hmi
          have hcl : (c :: rest).length = rest.length + 1 := by simp
          have hlen : (c :: rest).length = m.length + r.length := by
            rw [hseq]
            simp
          have hmpos : 1 ≤ m.length := by
            cases m with
            | nil => exact absurd rfl hmne
            | cons a w => simp
          have hrf : r.length ≤ fuel := by
            simp at hf
            omega
          obtain ⟨j', r', hj', hmj'⟩ := ih r _ hrf pm hpm
          refine ⟨m.length + j', r', ?_, ?_⟩
          · have hsub : (c :: rest).length - r.length = m.length := by omega
            rw [hj', hsub]
            omega
          · rw [← List.drop_drop, show (c :: rest).drop m.length = r from
              by rw [hseq]; exact List.drop_left m r]
            exact hmj'
      | none =>
        simp only [insertIntoMatchesAux, hmi] at hpm
        have hrf : rest.length ≤ fuel := by
          simp at hf
          omega
        obtain ⟨j', r', hj', hmj'⟩ := ih rest _ hrf pm hpm
        exact ⟨j' + 1, r', by omega, by simpa using hmj'⟩

theorem insertIntoMatchesAux_chain :
    ∀ (fuel : Nat) (s : List Char) (i : Nat),
      (∀ pm ∈ insertIntoMatchesAux fuel i s, i ≤ pm.1) ∧
        List.Chain' (fun a b : Nat × List Char => a.1 + a.2.length ≤ b.1)
          (insertIntoMatchesAux fuel i s) := by
  intro fuel
  induction fuel with
  | zero =>
    intro s i
    cases s <;> simp [insertIntoMatchesAux]
  | succ fuel ih =>
    intro s i
    cases s with
    | nil => simp [insertIntoMatchesAux]
    | cons c rest =>
      cases hmi : matchInsertInto (c :: rest) with
      | some p =>
        obtain ⟨m, r⟩ := p
        simp only [insertIntoMatchesAux, hmi]
        obtain ⟨hseq, hmne, _, _, _⟩ := matchInsertInto_spec hmi
        have hlen : (c :: rest).length - r.length = m.length := by
          rw [hseq]
          simp
        rw [hlen]
        obtain ⟨hlb, hch⟩ := ih r (i + m.length)
        constructor
        · intro pm hpm
          simp only [List.mem_cons] at hpm
          rcases hpm with hpm | hpm
          · rw [hpm]
          · exact le_trans (Nat.le_add_right i m.length) (hlb pm hpm)
        · rw [List.chain'_cons']
          refine ⟨?_, hch⟩
          intro b hb
          exact hlb b (List.mem_of_mem_head? hb)
      | none =>
        simp only [insertIntoMatchesAux, hmi]
        obtain ⟨hlb, hch⟩ := ih rest (i + 1)
        exact ⟨fun pm hpm => le_trans (Nat.le_succ i) (hlb pm hpm), hch⟩

theorem repairFragment_spec {m f : List Char} (hm : m ≠ [])
    (hhead : ∀ c, m.head? = some c → pyIsSpace c = false)
    (hlast : ∀ c, m.getLast? = some c → pyIsSpace c = false)
    (hnp : ∀ c ∈ m, c ≠ ')')
    (hpf : m <+: f) :
    m <+: repairFragment f ∧ endsWithSemicolon (repairFragment f) = true := by
  have hps : m <+: pyStrip f := pyStrip_keeps_front hm hhead hlast hpf
  unfold repairFragment
  dsimp only
  split
  case isTrue hv =>
    split
    case isTrue hsemi => exact ⟨hps, hsemi⟩
    case isFalse hsemi =>
      refine ⟨hps.trans ⟨[';'], rfl⟩, ?_⟩
      simp [endsWithSemicolon, List.getLast?_concat]
  case isFalse hv =>
    cases hrf : rfindChar ')' (pyStrip f) with
    | some lp =>
      dsimp only
      by_cases hlp : lp > 0
      · rw [if_pos hlp]
        obtain ⟨hlt, hget⟩ := rfindChar_spec ')' (pyStrip f) hrf
        obtain ⟨t, ht⟩ := hps
        have hlpge : m.length ≤ lp := by
          by_contra hcon
          push_neg at hcon
          rw [← ht, List.getElem?_append_left hcon] at hget
          exact hnp ')' (List.getElem?_mem hget) rfl
        constructor
        · have htk : (pyStrip f).take (lp + 1) =
              m ++ t.take (lp + 1 - m.length) := by
            rw [← ht, List.take_append_eq_append_take,
              List.take_of_length_le (by omega)]
          rw [htk]
          exact List.IsPrefix.trans ⟨t.take (lp + 1 - m.length), rfl⟩ ⟨[';'], rfl⟩
        · simp [endsWithSemicolon, List.getLast?_concat]
      · rw [if_neg hlp]
        refine ⟨(pyRstrip_keeps_front hm hlast hps).trans ⟨[';'], rfl⟩, ?_⟩
        simp [endsWithSemicolon, List.getLast?_concat]
    | none =>
      dsimp only
      refine ⟨(pyRstrip_keeps_front hm hlast hps).trans ⟨[';'], rfl⟩, ?_⟩
      simp [endsWithSemicolon, List.getLast?_concat]

theorem fragmentsFromPositions_spec (stmt : List Char) :
    ∀ ms : List (Nat × List Char),
      (∀ pm ∈ ms, ∃ r, matchInsertInto (stmt.drop pm.1) = some (pm.2, r)) →
      List.Chain' (fun a b : Nat × List Char => a.1 + a.2.length ≤ b.1) ms →
      List.Forall₂
        (fun pm fr =>
          pm.2 <+: fr ∧ (stmt.drop pm.1).take pm.2.length = pm.2 ∧
            endsWithSemicolon fr = true ∧
            ∃ n, fr = repairFragment ((stmt.drop pm.1).take n))
        ms (fragmentsFromPositions stmt (ms.map (·.1))) := by
  intro ms
  induction ms with
  | nil =>
    intro _ _
    exact List.Forall₂.nil
  | cons pm rest ih =>
    intro hall hch
    obtain ⟨r, hmr⟩ := hall pm (by simp)
    obtain ⟨hseq, hmne, hnp, hhead, hlast⟩ := matchInsertInto_spec hmr
    have htake : (stmt.drop pm.1).take pm.2.length = pm.2 := by
      rw [hseq]
      exact List.take_left pm.2 r
    cases rest with
    | nil =>
      refine List.Forall₂.cons ?_ List.Forall₂.nil
      obtain ⟨h1, h2⟩ := repairFragment_spec hmne hhead hlast hnp ⟨r, hseq.symm⟩
      exact ⟨h1, htake, h2,
        ⟨(stmt.drop pm.1).length, by rw [List.take_length]⟩⟩
    | cons pm' rest' =>
      rw [List.chain'_cons] at hch
      obtain ⟨hgap, hch'⟩ := hch
      refine List.Forall₂.cons ?_ (ih (fun q hq => hall q (by simp [hq])) hch')
      have hpf : pm.2 <+: (stmt.drop pm.1).take (pm'.1 - pm.1) := by
        rw [hseq, List.take_append_eq_append_take,
          List.take_of_length_le (by omega)]
        exact ⟨r.take (pm'.1 - pm.1 - pm.2.length), rfl⟩
      obtain ⟨h1, h2⟩ := repairFragment_spec hmne hhead hlast hnp hpf
      exact ⟨h1, htake, h2, ⟨pm'.1 - pm.1, rfl⟩⟩

/-- **C10.**  In the multi-INSERT repair pass of `split_sql_statements`:
for a scanned statement whose upper-cased text contains two or more
occurrences of `INSERT INTO`, the repair output is exactly the repaired
slices delimited by the `INSERT\s+INTO` match positions; fragment by
fragment (in order), the match text sits verbatim at its recorded
position in the statement and opens its fragment, every fragment ends
with a semicolon, and every fragment is computed from the slice of the
statement that starts at its own match position — so the characters
before the first `INSERT INTO` occurrence appear in no fragment. -/
theorem c10_multi_insert_fragments (stmt : List Char)
    (h : 2 ≤ countSubstr "INSERT INTO".toList (upperList stmt)) :
    repairStatement stmt = fragmentsFromPositions stmt (insertIntoPositions stmt) ∧
    List.Forall₂
      (fun pm fr =>
        pm.2 <+: fr ∧ (stmt.drop pm.1).take pm.2.length = pm.2 ∧
          endsWithSemicolon fr = true ∧
          ∃ n, fr = repairFragment ((stmt.drop pm.1).take n))
      (insertIntoMatches stmt) (repairStatement stmt) := by
  have hbr : repairStatement stmt =
      fragmentsFromPositions stmt (insertIntoPositions stmt) := by
    unfold repairStatement
    rw [if_pos (by omega)]
  refine ⟨hbr, ?_⟩
  rw [hbr]
  have hspec := insertIntoMatchesAux_spec stmt.length stmt 0 le_rfl
  have hch := (insertIntoMatchesAux_chain stmt.length stmt 0).2
  exact fragmentsFromPositions_spec stmt (insertIntoMatches stmt)
    (fun pm hpm => by
      obtain ⟨j, r, hj, hmj⟩ := hspec pm hpm
      exact ⟨r, by rw [show pm.1 = j from by omega]; exact hmj⟩)
    hch

/-- Witness for **C10** at the concrete statement
`INSERT INTO a VALUES (1) INSERT INTO b VALUES (2)`. -/
theorem c10_multi_insert_fragments_witness :
    2 ≤ countSubstr "INSERT INTO".toList
        (upperList "INSERT INTO a VALUES (1) INSERT INTO b VALUES (2)".toList) ∧
    (repairStatement "INSERT INTO a VALUES (1) INSERT INTO b VALUES (2)".toList =
        fragmentsFromPositions "INSERT INTO a VALUES (1) INSERT INTO b VALUES (2)".toList
          (insertIntoPositions "INSERT INTO a VALUES (1) INSERT INTO b VALUES (2)".toList) ∧
      List.Forall₂
        (fun pm fr =>
          pm.2 <+: fr ∧
            ("INSERT INTO a VALUES (1) INSERT INTO b VALUES (2)".toList.drop pm.1).take
                pm.2.length = pm.2 ∧
            endsWithSemicolon fr = true ∧
            ∃ n, fr = repairFragment
              (("INSERT INTO a VALUES (1) INSERT INTO b VALUES (2)".toList.drop pm.1).take n))
        (insertIntoMatches "INSERT INTO a VALUES (1) INSERT INTO b VALUES (2)".toList)
        (repairStatement "INSERT INTO a VALUES (1) INSERT INTO b VALUES (2)".toList)) :=
  ⟨by decide,
    c10_multi_insert_fragments "INSERT INTO a VALUES (1) INSERT INTO b VALUES (2)".toList
      (by decide)⟩

end MysqlExecutor
